import Mathlib

/-!
Verification development for the YoutubeDownloader repository (src/main.py).

The in-scope components (link normalizer, filename sanitizer, format-table
parser, selection resolver, collision loop, live-video gate) are shallowly
embedded below.  Python library primitives used by the source
(`urllib.parse.urlparse`, `urllib.parse.parse_qs`, `str.lower`, `str.split`,
`str.splitlines`, `re` patterns `\s+` and `^\s*\d+`, `str.translate`,
`str.strip` family) are modeled as explicit Lean functions on `List Char`;
the models are faithful on the Unicode scalar values the program manipulates,
with case mapping modeled on the ASCII range (the only range the program's
constants — reserved device names, domain names, classification substrings —
live in).  `unicodedata.normalize("NFKC", ·)` is an external library
transform; it is modeled as an explicit function parameter `nfkc`, so every
theorem quantifies over it.  Fallible Python code (functions that return
`None` or whose exceptions are swallowed by a caller's `try/except`) is
embedded with `Option`.
-/

namespace YtDl

/-- Model of the character class matched by Python's `\s` (and of
`str.isspace`, which drives no-argument `str.split`): ASCII whitespace
`\t \n \v \f \r`, space, the C1 separators `\x1c`–`\x1f`, `\x85`, `\xa0`,
and the Unicode space characters. -/
def isPySpace (c : Char) : Bool :=
  let n := c.toNat
  (9 ≤ n && n ≤ 13) || n == 32 || (28 ≤ n && n ≤ 31) || n == 0x85 ||
    n == 0xa0 || n == 0x1680 || (0x2000 ≤ n && n ≤ 0x200a) ||
    n == 0x2028 || n == 0x2029 || n == 0x202f || n == 0x205f || n == 0x3000

/-- Model of the line-break set of Python's `str.splitlines`:
`\n \r \v \f \x1c \x1d \x1e \x85    ` (with `\r\n` as one break). -/
def isPyLineBreak (c : Char) : Bool :=
  let n := c.toNat
  n == 10 || n == 13 || n == 11 || n == 12 || (28 ≤ n && n ≤ 30) ||
    n == 0x85 || n == 0x2028 || n == 0x2029

/-- `str.splitlines`, on the character list of the text.  The `\r\n` pair
counts as a single break; a trailing break yields no extra empty line. -/
def pySplitlinesCore : List Char → List Char → List (List Char)
  | cur, [] => [cur.reverse]
  | cur, '\r' :: '\n' :: rest => cur.reverse :: pySplitlinesCore [] rest
  | cur, c :: rest =>
    if isPyLineBreak c then cur.reverse :: pySplitlinesCore [] rest
    else pySplitlinesCore (c :: cur) rest

/-- Model of Python `str.splitlines` (empty string gives no lines). -/
def pySplitlines (s : String) : List String :=
  if s.data.isEmpty then []
  else (pySplitlinesCore [] s.data).map String.mk

/-- ASCII-scope model of Python `str.lower` (the source only compares the
lowered text against ASCII constants). -/
def pyLower (s : String) : String := String.mk (s.data.map Char.toLower)

/-- ASCII-scope model of Python `str.upper` (the source only compares the
uppered text against the ASCII reserved device names). -/
def pyUpper (s : String) : String := String.mk (s.data.map Char.toUpper)

/-- Model of Python's substring test `needle in hay`. -/
def listContainsSub (needle : List Char) : List Char → Bool
  | [] => needle.isEmpty
  | c :: rest => needle.isPrefixOf (c :: rest) || listContainsSub needle rest

/-- Model of Python's substring test `needle in hay` on strings. -/
def pyContains (hay needle : String) : Bool :=
  listContainsSub needle.data hay.data

/-- First no-argument-`split` token of a Python string: skip leading
whitespace, take up to the next whitespace.  For a string with at least one
non-space character this is exactly `s.split()[0]`. -/
def pyFirstToken (s : String) : String :=
  String.mk ((s.data.dropWhile isPySpace).takeWhile (fun c => !isPySpace c))

/-- Model of the compiled pattern `re.compile(r'^\s*\d+')` applied with
`.match`: true iff the text starts, after any leading `\s` characters, with
a decimal digit.  (`\d` is modeled on the ASCII digits the tool's tabular
output uses.) -/
def reMatchLeadingDigits (s : String) : Bool :=
  match s.data.dropWhile isPySpace with
  | [] => false
  | c :: _ => c.isDigit

/- ------------------------------------------------------------------ -/
/- Filename sanitizer (src/main.py lines 47-56 and 122-135).          -/
/- ------------------------------------------------------------------ -/

/-- The constant `FILENAME_FORBIDDEN = "\\/:*?\"<>|"` from src/main.py. -/
def FILENAME_FORBIDDEN : List Char := ['\\', '/', ':', '*', '?', '"', '<', '>', '|']

/-- The reserved device-name set `FILENAME_RESERVED` from src/main.py. -/
def FILENAME_RESERVED : List String :=
  ["CON", "PRN", "AUX", "NUL",
   "COM1", "COM2", "COM3", "COM4", "COM5", "COM6", "COM7", "COM8", "COM9",
   "LPT1", "LPT2", "LPT3", "LPT4", "LPT5", "LPT6", "LPT7", "LPT8", "LPT9"]

/-- A character survives `name.translate(FILENAME_TRANSLATION)`: the table
deletes the nine forbidden characters and the control range 0x00–0x1F. -/
def keepAfterTranslate (c : Char) : Bool :=
  !(FILENAME_FORBIDDEN.contains c) && !(c.toNat < 0x20)

/-- Model of `name.translate(FILENAME_TRANSLATION)` (pure deletion table). -/
def pyTranslateDelete (l : List Char) : List Char := l.filter keepAfterTranslate

/-- Model of `WS_REGEX.sub(" ", s)` for `WS_REGEX = re.compile(r"\s+")`:
every maximal run of `\s` characters becomes a single ASCII space. -/
def collapseWs : List Char → List Char
  | [] => []
  | [c] => [if isPySpace c then ' ' else c]
  | c :: d :: rest =>
    if isPySpace c && isPySpace d then collapseWs (d :: rest)
    else (if isPySpace c then ' ' else c) :: collapseWs (d :: rest)

/-- Model of Python `s.rstrip(chars)` at list level. -/
def pyRstrip (p : Char → Bool) (l : List Char) : List Char :=
  (l.reverse.dropWhile p).reverse

/-- The pure post-NFKC part of `sanitize_filename` (src/main.py lines
125-135): delete forbidden/control characters, collapse whitespace runs to
one space, `lstrip(" ")`, `lstrip(".")`, `rstrip(" .")`, blank out reserved
device names, and fall back to `"untitled"` when empty. -/
def sanitize_core (name : String) : String :=
  let l₁ := pyTranslateDelete name.data
  let l₂ := collapseWs l₁
  let l₃ := l₂.dropWhile (· == ' ')
  let l₄ := l₃.dropWhile (· == '.')
  let l₅ := pyRstrip (fun c => c == ' ' || c == '.') l₄
  let stem := if pyUpper (String.mk l₅) ∈ FILENAME_RESERVED then [] else l₅
  if stem.isEmpty then "untitled" else String.mk stem

/-- Model of `sanitize_filename` (src/main.py lines 123-135).  The first
step, `unicodedata.normalize("NFKC", name)`, is an external library
transform and is passed in as the parameter `nfkc`; on ASCII input NFKC is
the identity. -/
def sanitize_filename (nfkc : String → String) (name : String) : String :=
  sanitize_core (nfkc name)

/- ------------------------------------------------------------------ -/
/- Format-table processing (src/main.py lines 10 and 145-166).        -/
/- ------------------------------------------------------------------ -/

/-- The constant `RESOLUTIONS = "2160 1440 1080"` from src/main.py. -/
def RESOLUTIONS : String := "2160 1440 1080"

/-- No-argument `str.split`: maximal runs of non-whitespace characters. -/
def pySplitWsCore : List Char → List Char → List (List Char)
  | cur, [] => if cur.isEmpty then [] else [cur.reverse]
  | cur, c :: rest =>
    if isPySpace c then
      if cur.isEmpty then pySplitWsCore [] rest
      else cur.reverse :: pySplitWsCore [] rest
    else pySplitWsCore (c :: cur) rest

/-- Model of Python no-argument `str.split`. -/
def pySplitWs (s : String) : List String :=
  (pySplitWsCore [] s.data).map String.mk

/-- The eligibility test the source applies to each line for the video
list (src/main.py lines 152-155): `pattern.match(line)` and
`any(res in line for res in res_list)` and `"video" in line.lower()`. -/
def videoEligible (res_list : List String) (line : String) : Bool :=
  reMatchLeadingDigits line && res_list.any (fun r => pyContains line r) &&
    pyContains (pyLower line) "video"

/-- The eligibility test the source applies to each line for the audio
list (src/main.py lines 158-161): `pattern.match(line)` and
`"audio only" in line.lower()`. -/
def audioEligible (line : String) : Bool :=
  reMatchLeadingDigits line && pyContains (pyLower line) "audio only"

/-- Insertion into a Python `dict` modeled as an association list in key
insertion order: an existing key has its value replaced in place, a new key
is appended. -/
def pyDictInsert (m : List (String × String)) (kv : String × String) :
    List (String × String) :=
  if m.any (fun p => p.1 == kv.1) then
    m.map (fun p => if p.1 == kv.1 then kv else p)
  else m ++ [kv]

/-- A Python `dict` built from a list of key/value pairs (the semantics of
the source's dict comprehensions at lines 164-165). -/
def pyDict (l : List (String × String)) : List (String × String) :=
  l.foldl pyDictInsert []

/-- Model of `parse_available` (src/main.py lines 146-166): split the raw
text into lines, filter the video-eligible and audio-eligible lines, and
build the two id-to-line dicts keyed by `line.split()[0]`. -/
def parse_available (raw resolutions : String) :
    List (String × String) × List (String × String) :=
  let lines := pySplitlines raw
  let res_list := pySplitWs resolutions
  let video_lines := lines.filter (videoEligible res_list)
  let audio_lines := lines.filter audioEligible
  (pyDict (video_lines.map (fun l => (pyFirstToken l, l))),
   pyDict (audio_lines.map (fun l => (pyFirstToken l, l))))

/- ------------------------------------------------------------------ -/
/- Selection resolver (src/main.py lines 266-293).                    -/
/- ------------------------------------------------------------------ -/

/-- Python truthiness of an optional string (`None` and `""` are falsy). -/
def pyTruthy : Option String → Bool
  | none => false
  | some s => !s.isEmpty

/-- Model of the format-code composition (src/main.py lines 289-293):
`video_id if video_id and not audio_id else
 f"{video_id}+{audio_id}" if video_id and audio_id else audio_id`. -/
def format_code (video_id audio_id : Option String) : Option String :=
  if pyTruthy video_id && !pyTruthy audio_id then video_id
  else if pyTruthy video_id && pyTruthy audio_id then
    some (video_id.getD "" ++ "+" ++ audio_id.getD "")
  else audio_id

/- ------------------------------------------------------------------ -/
/- Collision-resolution loop (src/main.py lines 324-338).             -/
/- ------------------------------------------------------------------ -/

/-- Decimal digits of `n`, most significant first, by fuel-bounded long
division (`fuel` must be at least the number of digits minus one; the
callers pass `n` itself).  Models Python's decimal formatting of a
non-negative integer in the f-string at line 333. -/
def natReprDigits : ℕ → ℕ → List Char
  | 0, n => [Nat.digitChar (n % 10)]
  | fuel + 1, n =>
    if n < 10 then [Nat.digitChar n]
    else natReprDigits fuel (n / 10) ++ [Nat.digitChar (n % 10)]

/-- Model of Python `str(n)` / f-string formatting for a natural number. -/
def pyStr (n : ℕ) : String := String.mk (natReprDigits n n)

/-- The candidate name `f"{new_stem} ({i})" + p.suffix` from line 333. -/
def mkCand (stem ext : String) (i : ℕ) : String :=
  stem ++ " (" ++ pyStr i ++ ")" ++ ext

/-- The search of the `while candidate.exists()` loop (lines 329-334),
over a fixed finite set `existing` of names present in the directory:
starting at index `i`, return the first index whose candidate name is
free.  `fuel` bounds the search; the caller passes enough fuel for a free
name to exist in range. -/
def findFreeIdx (existing : List String) (stem ext : String) : ℕ → ℕ → ℕ
  | i, 0 => i
  | i, fuel + 1 =>
    if mkCand stem ext i ∈ existing then findFreeIdx existing stem ext (i + 1) fuel
    else i

/-- Model of the rename-target selection of src/main.py lines 328-334,
with the directory contents modeled as the fixed finite set `existing`:
the target `stem+ext` is kept if free, otherwise `stem (n)+ext` for the
first free `n` counting from 1. -/
def resolve_collision (existing : List String) (stem ext : String) : String :=
  if stem ++ ext ∈ existing then
    mkCand stem ext (findFreeIdx existing stem ext 1 (existing.length + 1))
  else stem ++ ext

/- ------------------------------------------------------------------ -/
/- Link normalizer (src/main.py lines 74-94), with a model of          -/
/- urllib.parse.urlparse / parse_qs (CPython 3.11).                    -/
/- ------------------------------------------------------------------ -/

/-- Result of `urlparse` restricted to the components the source reads:
`netloc`, `path` (with the `params` component already split off, as
`urlparse` does), and `query`.  The `scheme` is computed for fidelity of
the split positions; `params` and `fragment` are discarded unread. -/
structure PyUrl where
  scheme : List Char
  netloc : List Char
  path : List Char
  query : List Char

/-- A scheme character per `urllib.parse.scheme_chars`: ASCII letters,
digits, `+`, `-`, `.`. -/
def schemeChar (c : Char) : Bool :=
  c.isAlpha || c.isDigit || c == '+' || c == '-' || c == '.'

/-- The scheme-splitting step of `urlsplit`: if the text up to the first
`:` is nonempty, starts with an ASCII letter and consists of scheme
characters, it is the (lowercased) scheme and the rest follows the `:`;
otherwise there is no scheme. -/
def splitScheme (l : List Char) : List Char × List Char :=
  match l.dropWhile (fun c => c != ':') with
  | ':' :: rest =>
    let pre := l.takeWhile (fun c => c != ':')
    if pre.isEmpty then ([], l)
    else if pre.head?.any Char.isAlpha && pre.all schemeChar then
      (pre.map Char.toLower, rest)
    else ([], l)
  | _ => ([], l)

/-- A netloc terminator per `_splitnetloc`: `/`, `?` or `#`. -/
def netlocDelim (c : Char) : Bool := c == '/' || c == '?' || c == '#'

/-- The `params` split of `urlparse`/`_splitparams`: when the path
contains `;`, cut the last segment at its first `;` (or, for a path with
no `/`, cut the whole path at its first `;`). -/
def splitParamsPath (path : List Char) : List Char :=
  if path.contains ';' then
    if path.contains '/' then
      let segRev := path.reverse.takeWhile (fun c => c != '/')
      if segRev.contains ';' then
        (path.reverse.dropWhile (fun c => c != '/')).reverse ++
          segRev.reverse.takeWhile (fun c => c != ';')
      else path
    else path.takeWhile (fun c => c != ';')
  else path

/-- Model of `urllib.parse.urlparse` (CPython 3.11 `urlsplit` plus the
`params` split), on the character list of the URL; `none` models a raised
`ValueError`.  Steps: lstrip WHATWG C0-control-or-space; remove every tab,
CR and LF; split a scheme; after `//`, take the netloc up to the first
`/ ? #`; then split the fragment at the first `#` and the query at the
first `?`.  Model boundary: a netloc containing `[` or `]` is treated as
`ValueError` (CPython validates the bracketed text as an IP literal and
raises for everything the claims exercise; a netloc mixing a valid
bracketed IP with other text is not distinguished).  The non-ASCII-netloc
NFKC check of `_checknetloc` is not modeled. -/
def pyUrlparse (l : List Char) : Option PyUrl :=
  let l₀ := l.dropWhile (fun c => c.toNat ≤ 0x20)
  let l₁ := l₀.filter (fun c => !(c == '\t' || c == '\r' || c == '\n'))
  let sr := splitScheme l₁
  match sr.2 with
  | '/' :: '/' :: rest =>
    let netloc := rest.takeWhile (fun c => !netlocDelim c)
    let rest' := rest.dropWhile (fun c => !netlocDelim c)
    if netloc.contains '[' || netloc.contains ']' then none
    else
      let beforeFrag := rest'.takeWhile (fun c => c != '#')
      some ⟨sr.1, netloc, splitParamsPath (beforeFrag.takeWhile (fun c => c != '?')),
            (beforeFrag.dropWhile (fun c => c != '?')).drop 1⟩
  | other =>
    let beforeFrag := other.takeWhile (fun c => c != '#')
    some ⟨sr.1, [], splitParamsPath (beforeFrag.takeWhile (fun c => c != '?')),
          (beforeFrag.dropWhile (fun c => c != '?')).drop 1⟩

/-- Hexadecimal digit test for percent-decoding. -/
def isHexDig (c : Char) : Bool :=
  c.isDigit || ('a' ≤ c && c ≤ 'f') || ('A' ≤ c && c ≤ 'F')

/-- Value of a hexadecimal digit. -/
def hexVal (c : Char) : ℕ :=
  if c.isDigit then c.toNat - 48
  else if 'a' ≤ c && c ≤ 'f' then c.toNat - 87
  else c.toNat - 55

/-- Model of `urllib.parse.unquote`: decode `%hh` escapes.  The decoded
byte is mapped to the scalar of equal value; this is exact below 0x80
(CPython additionally UTF-8-decodes multi-byte escape runs, which the
program never feeds itself: the claims' scopes exclude `%`). -/
def unquote : List Char → List Char
  | [] => []
  | c :: rest =>
    if c == '%' then
      match rest with
      | a :: b :: rest' =>
        if isHexDig a && isHexDig b then
          Char.ofNat (16 * hexVal a + hexVal b) :: unquote rest'
        else c :: unquote (a :: b :: rest')
      | other => c :: unquote other
    else c :: unquote rest

/-- Model of `urllib.parse.unquote_plus`: `+` becomes a space, then
percent-escapes are decoded. -/
def unquotePlus (l : List Char) : List Char :=
  unquote (l.map (fun c => if c == '+' then ' ' else c))

/-- Split on a single separator character (Python `str.split(sep)`;
`"".split(sep)` gives one empty chunk). -/
def splitCharList (sep : Char) : List Char → List (List Char)
  | [] => [[]]
  | c :: rest =>
    if c == sep then [] :: splitCharList sep rest
    else
      match splitCharList sep rest with
      | [] => [[c]]
      | s :: ss => (c :: s) :: ss

/-- The pair scan of `parse_qsl` (default options: separator `&`, blank
values dropped, names and values passed through `unquote_plus`), returning
the first value bound to `key` — the semantics of
`(parse_qs(q).get(key) or [None])[0]` in the source. -/
def parseQsFirst (key : List Char) : List (List Char) → Option (List Char)
  | [] => none
  | p :: rest =>
    if p.isEmpty then parseQsFirst key rest
    else
      match p.dropWhile (fun c => c != '=') with
      | '=' :: value =>
        if value.isEmpty then parseQsFirst key rest
        else if unquotePlus (p.takeWhile (fun c => c != '=')) = key then
          some (unquotePlus value)
        else parseQsFirst key rest
      | _ => parseQsFirst key rest

/-- `(parse_qs(query).get("v") or [None])[0]` from src/main.py line 86. -/
def qsFirstV (query : List Char) : Option (List Char) :=
  parseQsFirst ['v'] (splitCharList '&' query)

/-- The separator literal `"/shorts/"` used at src/main.py line 88. -/
def SHORTS_SEP : List Char := "/shorts/".data

/-- Fuel-bounded scan for `path.split("/shorts/")[-1]`: Python's `split`
scans left to right consuming each separator occurrence; the last chunk is
the suffix after the final consumed occurrence.  Returns `none` when the
separator does not occur. -/
def afterShortsGo : ℕ → List Char → Option (List Char)
  | 0, _ => none
  | _ + 1, [] => none
  | fuel + 1, c :: rest =>
    if SHORTS_SEP.isPrefixOf (c :: rest) then
      let tail := (c :: rest).drop 8
      match afterShortsGo fuel tail with
      | some r => some r
      | none => some tail
    else afterShortsGo fuel rest

/-- Model of `path.split("/shorts/")[-1]` (the whole path when the
separator does not occur). -/
def pySplitLastShorts (path : List Char) : List Char :=
  (afterShortsGo path.length path).getD path

/-- The identifier extraction of `normalize_youtube_link` after parsing
(src/main.py lines 80-91): the recognized long-form host test is the
substring test `"youtube.com" in host` on the lowercased netloc; the
short-link host test is equality with `youtu.be`. -/
def normalizeVid (u : PyUrl) : Option (List Char) :=
  let host := u.netloc.map Char.toLower
  if listContainsSub "youtube.com".data host then
    if "/watch".data.isPrefixOf u.path then qsFirstV u.query
    else if "/shorts/".data.isPrefixOf u.path then
      let seg := (pySplitLastShorts u.path).takeWhile (fun c => c != '/')
      if seg.isEmpty then none else some seg
    else none
  else if host = "youtu.be".data then
    match (splitCharList '/' u.path).filter (fun p => !p.isEmpty) with
    | [] => none
    | seg :: _ => some seg
  else none

/-- Model of `normalize_youtube_link` (src/main.py lines 75-94).  A parse
failure (the `except` branch) and a missing/empty identifier (`if not
vid`) both come out as `none`; a success is the canonical
`https://www.youtube.com/watch?v=<id>` string. -/
def normalize_youtube_link (link : String) : Option String :=
  match pyUrlparse link.data with
  | none => none
  | some u =>
    match normalizeVid u with
    | none => none
    | some v =>
      if v.isEmpty then none
      else some (String.mk ("https://www.youtube.com/watch?v=".data ++ v))

/- ------------------------------------------------------------------ -/
/- Live-video gate (src/main.py lines 111-119 and 216-231).           -/
/- ------------------------------------------------------------------ -/

/-- The probe fields the live test reads from the yt-dlp JSON (an external
process result, passed in as data): `is_live` when it is a JSON boolean
(any non-boolean value fails Python's `is True` test exactly like an
absent field), and `live_status` when it is a string (absent and falsy
values both collapse to `""` under `str(... or "")`). -/
structure ProbeInfo where
  is_live : Option Bool
  live_status : Option String

/-- The status set `{"is_live", "live", "is_upcoming", "upcoming"}`. -/
def LIVE_STATUSES : List String := ["is_live", "live", "is_upcoming", "upcoming"]

/-- Model of `is_live_video` (src/main.py lines 112-119), with the probe
result as a parameter: a falsy probe gives `False`; otherwise `is_live is
True` short-circuits, else the lowercased `live_status` is tested against
the status set. -/
def is_live_video (info : Option ProbeInfo) : Bool :=
  match info with
  | none => false
  | some i =>
    if i.is_live == some true then true
    else LIVE_STATUSES.contains (pyLower (i.live_status.getD ""))

/-- The inline live computation of `main` (src/main.py lines 219-222 and
228-231): `info.get("is_live") is True or live_status in {...}`, with
`live = False` when the probe is falsy. -/
def mainLiveCheck (info : Option ProbeInfo) : Bool :=
  match info with
  | none => false
  | some i =>
    i.is_live == some true || LIVE_STATUSES.contains (pyLower (i.live_status.getD ""))

/-- Outcome of one pass of the link-entry logic: `reject` models the
`print("Link inválido.")`-and-re-prompt path of the `while not normalized
or live` loop, `accept` models leaving the loop with the canonical link. -/
inductive LinkStep where
  | reject : LinkStep
  | accept : String → LinkStep
deriving DecidableEq

/-- One pass of the link-entry loop of `main` (src/main.py lines 216-231):
a link is kept only when it normalizes and the probed video is not live;
a malformed link and a live video take the same `reject` path. -/
def linkEntryStep (raw : String) (info : Option ProbeInfo) : LinkStep :=
  match normalize_youtube_link raw with
  | none => .reject
  | some c => if mainLiveCheck info then .reject else .accept c

/- ------------------------------------------------------------------ -/
/- Claim-side (specification-worded) predicates, used to state the     -/
/- refinement directions of C1 and C5.                                 -/
/- ------------------------------------------------------------------ -/

/-- Claim wording: `needle` occurs in `hay` as a literal substring. -/
def IsSubstring (needle hay : List Char) : Prop :=
  ∃ a b, hay = a ++ needle ++ b

/-- Claim wording for C1: the line starts, after any leading whitespace,
with a (nonempty) decimal digit sequence. -/
def ClaimCandidateRow (line : String) : Prop :=
  ∃ w d rest, line.data = w ++ d ++ rest ∧ (∀ c ∈ w, isPySpace c = true) ∧
    d ≠ [] ∧ ∀ c ∈ d, c.isDigit = true

/-- Claim wording for C1: video classification — candidate row, contains
"video" case-insensitively, and contains some resolution token of the set
as a literal substring. -/
def ClaimVideoRow (res_list : List String) (line : String) : Prop :=
  ClaimCandidateRow line ∧ IsSubstring "video".data (pyLower line).data ∧
    ∃ r ∈ res_list, IsSubstring r.data line.data

/-- Claim wording for C1: audio classification — candidate row containing
"audio only" case-insensitively. -/
def ClaimAudioRow (line : String) : Prop :=
  ClaimCandidateRow line ∧ IsSubstring "audio only".data (pyLower line).data

/-- Hypothesis set for C5's long-form host: printable ASCII, no netloc
terminator or bracket, and the lowercased text contains "youtube.com". -/
def hostOk (host : String) : Bool :=
  host.data.all (fun c =>
    (0x20 < c.toNat && c.toNat < 0x7f) && !(['/', '?', '#', '[', ']'].contains c)) &&
  listContainsSub "youtube.com".data (host.data.map Char.toLower)

/-- Hypothesis set for C5's watch-form identifier: nonempty printable
ASCII free of the query-structural characters `& # % +`. -/
def queryIdOk (id : String) : Bool :=
  !id.data.isEmpty && id.data.all (fun c =>
    (0x20 < c.toNat && c.toNat < 0x7f) && !(['&', '#', '%', '+'].contains c))

/-- Hypothesis set for C5's path identifiers (shorts segment, youtu.be
first segment): nonempty printable ASCII free of `/ ? # ;`. -/
def pathIdOk (id : String) : Bool :=
  !id.data.isEmpty && id.data.all (fun c =>
    (0x20 < c.toNat && c.toNat < 0x7f) && !(['/', '?', '#', ';'].contains c))

/-- Hypothesis set for C5's trailing path text: empty or a further
`/`-led path remainder of printable ASCII free of `? # ;`. -/
def pathRestOk (rest : String) : Bool :=
  (rest.data.isEmpty || rest.data.head? == some '/') &&
  rest.data.all (fun c =>
    (0x20 < c.toNat && c.toNat < 0x7f) && !(['?', '#', ';'].contains c))

/-- Proof-support: read a digit list back as a number (left inverse of
`natReprDigits`, used to show decimal formatting is injective). -/
def charsVal (l : List Char) : ℕ := l.foldl (fun a c => 10 * a + (c.toNat - 48)) 0

/- ================================================================== -/
/- Theorems.                                                          -/
/- ================================================================== -/

/-- C2: the composed format expression is the video id alone, the audio id
alone, or `video_id+audio_id`, according to which identifiers of the
Selection are present; no other shape is produced.  The identifiers a
Selection can hold are nonempty (they are keys of the parsed catalogs), so
presence coincides with Python truthiness. -/
theorem C2_format_expression_shape (v a : Option String)
    (hv : ∀ s, v = some s → s ≠ "") (ha : ∀ s, a = some s → s ≠ "")
    (hpresent : v ≠ none ∨ a ≠ none) :
    (a = none → format_code v a = v) ∧
    (v = none → format_code v a = a) ∧
    (∀ x y, v = some x → a = some y → format_code v a = some (x ++ "+" ++ y)) ∧
    (format_code v a = v ∨ format_code v a = a ∨
      ∃ x y, v = some x ∧ a = some y ∧ format_code v a = some (x ++ "+" ++ y)) := by
  cases v with
  | none =>
    cases a with
    | none => simp at hpresent
    | some y =>
      have hy : y ≠ "" := ha y rfl
      have hy' : y.isEmpty = false := by
        cases h : y.isEmpty
        · rfl
        · exact absurd (String.isEmpty_iff y |>.mp h) hy
      simp [format_code, pyTruthy, hy']
  | some x =>
    have hx : x ≠ "" := hv x rfl
    have hx' : x.isEmpty = false := by
      cases h : x.isEmpty
      · rfl
      · exact absurd (String.isEmpty_iff x |>.mp h) hx
    cases a with
    | none => simp [format_code, pyTruthy, hx']
    | some y =>
      have hy : y ≠ "" := ha y rfl
      have hy' : y.isEmpty = false := by
        cases h : y.isEmpty
        · rfl
        · exact absurd (String.isEmpty_iff y |>.mp h) hy
      refine ⟨by simp, by simp, ?_, ?_⟩
      · intro x' y' hx'' hy''
        cases hx''; cases hy''
        simp [format_code, pyTruthy, hx', hy']
      · exact Or.inr (Or.inr ⟨x, y, rfl, rfl, by simp [format_code, pyTruthy, hx', hy']⟩)

/-- Witness for C2 at a concrete both-present Selection. -/
theorem C2_format_expression_shape_witness :
    format_code (some "137") (some "140") = some ("137" ++ "+" ++ "140") :=
  (C2_format_expression_shape (some "137") (some "140")
      (by intro s hs; cases hs; decide) (by intro s hs; cases hs; decide)
      (Or.inl (by simp))).2.2.1 "137" "140" rfl rfl

/-- C10: one pass of the link-entry loop accepts a link exactly when it
normalizes and the probe is not live; a live probe (field `is_live` equal
to the JSON `True`, or `live_status` lowercasing into the status set) and a
malformed link take the same `reject` (re-prompt) path; and the inline
check of `main` agrees with `is_live_video`. -/
theorem C10_live_gate (raw : String) (info : Option ProbeInfo) (c : String) :
    ((linkEntryStep raw info = LinkStep.accept c) ↔
      (normalize_youtube_link raw = some c ∧ mainLiveCheck info = false)) ∧
    (mainLiveCheck info = true → linkEntryStep raw info = LinkStep.reject) ∧
    (normalize_youtube_link raw = none → linkEntryStep raw info = LinkStep.reject) ∧
    (mainLiveCheck info = is_live_video info) ∧
    (mainLiveCheck info = true ↔
      ∃ i, info = some i ∧ (i.is_live = some true ∨
        pyLower (i.live_status.getD "") ∈ LIVE_STATUSES)) := by
  refine ⟨?_, ?_, ?_, ?_, ?_⟩
  · cases h : normalize_youtube_link raw with
    | none => simp [linkEntryStep, h]
    | some c' =>
      cases hl : mainLiveCheck info <;> simp [linkEntryStep, h, hl]
  · intro hl
    cases h : normalize_youtube_link raw <;> simp [linkEntryStep, h, hl]
  · intro h
    simp [linkEntryStep, h]
  · cases info with
    | none => rfl
    | some i =>
      cases h : (i.is_live == some true) <;> simp [mainLiveCheck, is_live_video, h]
  · cases info with
    | none => simp [mainLiveCheck]
    | some i =>
      simp [mainLiveCheck, List.contains_iff_exists_mem_beq]
      try tauto

/-- Witness for C10: a live probe result forces the reject path on a
well-formed link. -/
theorem C10_live_gate_witness :
    linkEntryStep "https://youtu.be/abc" (some ⟨some true, none⟩) = LinkStep.reject :=
  (C10_live_gate "https://youtu.be/abc" (some ⟨some true, none⟩) "").2.1 (by rfl)

/- ------------------------------------------------------------------ -/
/- Sanitizer lemmas, C3 and C4.                                       -/
/- ------------------------------------------------------------------ -/

/-- Whitespace collapsing introduces nothing but ASCII spaces. -/
theorem mem_collapseWs : ∀ {l : List Char} {c : Char}, c ∈ collapseWs l → c = ' ' ∨ c ∈ l := by
  intro l
  induction l using collapseWs.induct with
  | case1 => intro c h; simp [collapseWs] at h
  | case2 d =>
    intro c h
    simp only [collapseWs, List.mem_singleton] at h
    by_cases hd : isPySpace d
    · rw [if_pos hd] at h; exact Or.inl h
    · rw [if_neg hd] at h; exact Or.inr (by simp [h])
  | case3 c' d rest hsp ih =>
    intro c h
    rw [collapseWs, if_pos hsp] at h
    rcases ih h with h' | h'
    · exact Or.inl h'
    · exact Or.inr (List.mem_cons_of_mem _ h')
  | case4 c' d rest hsp ih =>
    intro c h
    rw [collapseWs, if_neg hsp] at h
    rcases List.mem_cons.mp h with h' | h'
    · by_cases hc' : isPySpace c'
      · rw [h', if_pos hc']; exact Or.inl rfl
      · rw [h', if_neg hc']; exact Or.inr (List.mem_cons_self _ _)
    · rcases ih h' with h'' | h''
      · exact Or.inl h''
      · exact Or.inr (List.mem_cons_of_mem _ h'')

/-- The head surviving a `dropWhile` fails the predicate. -/
theorem head?_dropWhile_false {α : Type} {p : α → Bool} :
    ∀ {l : List α} {c : α}, (l.dropWhile p).head? = some c → p c = false := by
  intro l
  induction l with
  | nil => intro c h; simp at h
  | cons a t ih =>
    intro c h
    rw [List.dropWhile_cons] at h
    split at h
    · exact ih h
    · rename_i hp
      simp only [List.head?_cons, Option.some.injEq] at h
      subst h
      exact Bool.eq_false_iff.mpr hp

/-- `pyRstrip p l` is a prefix of `l`. -/
theorem pyRstrip_append (p : Char → Bool) (l : List Char) :
    pyRstrip p l ++ (l.reverse.takeWhile p).reverse = l := by
  unfold pyRstrip
  rw [← List.reverse_append, List.takeWhile_append_dropWhile, List.reverse_reverse]

/-- The last character surviving `pyRstrip` fails the predicate. -/
theorem getLast?_pyRstrip_false {p : Char → Bool} {l : List Char} {c : Char}
    (h : (pyRstrip p l).getLast? = some c) : p c = false := by
  rw [pyRstrip, List.getLast?_eq_head?_reverse, List.reverse_reverse] at h
  exact head?_dropWhile_false h

/-- Membership in `pyRstrip` implies membership in the original list. -/
theorem mem_pyRstrip {p : Char → Bool} {l : List Char} {c : Char}
    (h : c ∈ pyRstrip p l) : c ∈ l := by
  have := pyRstrip_append p l
  rw [← this]
  exact List.mem_append_left _ h

/-- C3: for every input (and every behavior of the external NFKC
transform), the sanitized stem is nonempty, contains no forbidden
character and no control character in 0x00–0x1F, and its uppercase form is
not a reserved device name. -/
theorem C3_sanitize_filename_safe (nfkc : String → String) (name : String) :
    sanitize_filename nfkc name ≠ "" ∧
    (∀ c ∈ (sanitize_filename nfkc name).data,
      c ∉ FILENAME_FORBIDDEN ∧ ¬c.toNat ≤ 0x1f) ∧
    pyUpper (sanitize_filename nfkc name) ∉ FILENAME_RESERVED := by
  simp only [sanitize_filename, sanitize_core]
  set l₅ := pyRstrip (fun c => c == ' ' || c == '.')
      (((collapseWs (pyTranslateDelete (nfkc name).data)).dropWhile
          (· == ' ')).dropWhile (· == '.')) with hl₅
  have hmem : ∀ c ∈ l₅, c ∉ FILENAME_FORBIDDEN ∧ ¬c.toNat ≤ 0x1f := by
    intro c hc
    have h₄ := mem_pyRstrip hc
    have h₃ := (List.dropWhile_sublist (· == '.')).subset h₄
    have h₂ := (List.dropWhile_sublist (· == ' ')).subset h₃
    rcases mem_collapseWs h₂ with h' | h'
    · subst h'; exact ⟨by decide, by decide⟩
    · have hkeep : keepAfterTranslate c = true := List.of_mem_filter h'
      unfold keepAfterTranslate at hkeep
      rw [Bool.and_eq_true, Bool.not_eq_true', Bool.not_eq_true'] at hkeep
      constructor
      · intro hmem'
        have : FILENAME_FORBIDDEN.contains c = true := List.elem_iff.mpr hmem'
        rw [this] at hkeep
        exact absurd hkeep.1 (by decide)
      · have := hkeep.2
        simp only [decide_eq_false_iff_not, not_lt] at this
        omega
  by_cases hres : pyUpper (String.mk l₅) ∈ FILENAME_RESERVED
  · rw [if_pos hres]
    refine ⟨by decide, ?_, by decide⟩
    intro c hc
    simp only [List.isEmpty_nil, if_true] at hc
    fin_cases hc <;> exact ⟨by decide, by decide⟩
  · rw [if_neg hres]
    cases hemp : l₅.isEmpty
    · rw [if_neg (by simp [hemp])]
      refine ⟨?_, ?_, hres⟩
      · intro hcon
        have : l₅ = [] := by
          have := congrArg String.data hcon
          simpa using this
        rw [this] at hemp
        simp at hemp
      · intro c hc
        exact hmem c hc
    · rw [if_pos (by simp [hemp])]
      refine ⟨by decide, ?_, by decide⟩
      intro c hc
      fin_cases hc <;> exact ⟨by decide, by decide⟩

/-- Witness for C3 (NFKC is the identity on this ASCII input). -/
theorem C3_sanitize_filename_safe_witness :
    sanitize_filename id "a/b:c*d" ≠ "" ∧
    pyUpper (sanitize_filename id "a/b:c*d") ∉ FILENAME_RESERVED ∧
    ('a' ∈ (sanitize_filename id "a/b:c*d").data →
      'a' ∉ FILENAME_FORBIDDEN ∧ ¬('a'.toNat ≤ 0x1f)) :=
  ⟨(C3_sanitize_filename_safe id "a/b:c*d").1,
   (C3_sanitize_filename_safe id "a/b:c*d").2.2,
   fun h => (C3_sanitize_filename_safe id "a/b:c*d").2.1 'a' h⟩

/-- Counterexample to C4 as stated: on the input `". x"` (NFKC-invariant
ASCII) the sanitizer returns `" x"`, which begins with a space — the
`lstrip(" ")` step runs before `lstrip(".")`, so removing leading periods
can expose a space that is never trimmed. -/
theorem C4_counterexample :
    sanitize_filename id ". x" = " x" ∧
    (sanitize_filename id ". x").data.head? = some ' ' := by
  constructor <;> rfl

/-- C4, amended: the sanitizer's result never begins with a period and
never ends with a space or a period.  (The original claim also said the
result never begins with a space; that part fails, see the
counterexample.) -/
theorem C4_sanitize_filename_trim (nfkc : String → String) (name : String) :
    (∀ c, (sanitize_filename nfkc name).data.head? = some c → c ≠ '.') ∧
    (∀ c, (sanitize_filename nfkc name).data.getLast? = some c →
      c ≠ ' ' ∧ c ≠ '.') := by
  simp only [sanitize_filename, sanitize_core]
  set l₄ := ((collapseWs (pyTranslateDelete (nfkc name).data)).dropWhile
      (· == ' ')).dropWhile (· == '.') with hl₄
  set l₅ := pyRstrip (fun c => c == ' ' || c == '.') l₄ with hl₅
  by_cases hres : pyUpper (String.mk l₅) ∈ FILENAME_RESERVED
  · rw [if_pos hres]
    simp only [List.isEmpty_nil, if_true]
    exact ⟨by intro c h; simp at h; subst h; decide,
           by intro c h; simp at h; subst h; decide⟩
  · rw [if_neg hres]
    cases hemp : l₅.isEmpty
    · rw [if_neg (by simp [hemp])]
      constructor
      · intro c hc
        have hpre := pyRstrip_append (fun c => c == ' ' || c == '.') l₄
        rw [← hl₅] at hpre
        have hc₄ : l₄.head? = some c := by
          rw [← hpre, List.head?_append, hc, Option.or_some]
        have := head?_dropWhile_false (p := (· == '.')) hc₄
        simpa using this
      · intro c hc
        have := getLast?_pyRstrip_false hc
        simp only [Bool.or_eq_false_iff, beq_eq_false_iff_ne] at this
        exact this
    · rw [if_pos (by simp [hemp])]
      exact ⟨by intro c h; simp at h; subst h; decide,
             by intro c h; simp at h; subst h; decide⟩

/-- Witness for C4's amended statement on a concrete input. -/
theorem C4_sanitize_filename_trim_witness :
    (∀ c, (sanitize_filename id "  video:  a?  ").data.head? = some c → c ≠ '.') ∧
    (∀ c, (sanitize_filename id "  video:  a?  ").data.getLast? = some c →
      c ≠ ' ' ∧ c ≠ '.') :=
  C4_sanitize_filename_trim id "  video:  a?  "

/- ------------------------------------------------------------------ -/
/- Collision-loop lemmas and C9.                                      -/
/- ------------------------------------------------------------------ -/

/-- Scalar value of a decimal digit character. -/
theorem digitChar_toNat {d : ℕ} (h : d < 10) : (Nat.digitChar d).toNat = 48 + d := by
  interval_cases d <;> rfl

/-- `charsVal` peels off a trailing digit. -/
theorem charsVal_append (l : List Char) (c : Char) :
    charsVal (l ++ [c]) = 10 * charsVal l + (c.toNat - 48) := by
  simp [charsVal, List.foldl_append]

/-- Reading back the decimal digits of `n` yields `n` (with enough fuel). -/
theorem charsVal_natReprDigits :
    ∀ fuel n, n < 10 ^ (fuel + 1) → charsVal (natReprDigits fuel n) = n := by
  intro fuel
  induction fuel with
  | zero =>
    intro n h
    have h10 : n < 10 := by simpa using h
    rw [natReprDigits, Nat.mod_eq_of_lt h10]
    simp [charsVal, digitChar_toNat h10]
  | succ fuel ih =>
    intro n h
    rw [natReprDigits]
    by_cases h10 : n < 10
    · rw [if_pos h10]
      simp [charsVal, digitChar_toNat h10]
    · rw [if_neg h10]
      have hdiv : n / 10 < 10 ^ (fuel + 1) := by
        rw [Nat.div_lt_iff_lt_mul (by norm_num)]
        calc n < 10 ^ (fuel + 1 + 1) := h
          _ = 10 ^ (fuel + 1) * 10 := by ring
      rw [charsVal_append, ih (n / 10) hdiv, digitChar_toNat (Nat.mod_lt _ (by norm_num))]
      omega

/-- Python decimal formatting of naturals is injective. -/
theorem pyStr_inj : Function.Injective pyStr := by
  intro m n h
  have hm : m < 10 ^ (m + 1) :=
    lt_of_lt_of_le (Nat.lt_pow_self (by norm_num) m)
      (Nat.pow_le_pow_right (by norm_num) (Nat.le_succ m))
  have hn : n < 10 ^ (n + 1) :=
    lt_of_lt_of_le (Nat.lt_pow_self (by norm_num) n)
      (Nat.pow_le_pow_right (by norm_num) (Nat.le_succ n))
  have hdata := congrArg String.data h
  simp only [pyStr] at hdata
  calc m = charsVal (natReprDigits m m) := (charsVal_natReprDigits m m hm).symm
    _ = charsVal (natReprDigits n n) := by rw [hdata]
    _ = n := charsVal_natReprDigits n n hn

/-- Candidate names with different counters differ. -/
theorem mkCand_inj (stem ext : String) : Function.Injective (mkCand stem ext) := by
  intro i j h
  apply pyStr_inj
  have h' := congrArg String.data h
  simp only [mkCand, String.data_append] at h'
  have h₁ := List.append_cancel_right h'
  have h₂ := List.append_cancel_right h₁
  have h₃ := List.append_cancel_left h₂
  exact congrArg String.mk h₃

/-- Pigeonhole: among the first `|existing| + 1` positive counters, some
candidate name is free. -/
theorem exists_free_mkCand (existing : List String) (stem ext : String) :
    ∃ j, 1 ≤ j ∧ j ≤ existing.length + 1 ∧ mkCand stem ext j ∉ existing := by
  by_contra h
  push_neg at h
  have hsub : (Finset.Icc 1 (existing.length + 1)).image (mkCand stem ext) ⊆
      existing.toFinset := by
    intro x hx
    simp only [Finset.mem_image, Finset.mem_Icc] at hx
    obtain ⟨j, ⟨h1, h2⟩, rfl⟩ := hx
    exact List.mem_toFinset.mpr (h j h1 h2)
  have hcard := Finset.card_le_card hsub
  rw [Finset.card_image_of_injective _ (mkCand_inj stem ext), Nat.card_Icc] at hcard
  have := existing.toFinset_card_le
  omega

/-- The loop finds the first free index at or after its start, provided a
free index exists within fuel range. -/
theorem findFreeIdx_spec (existing : List String) (stem ext : String) :
    ∀ fuel i, (∃ j, i ≤ j ∧ j ≤ i + fuel ∧ mkCand stem ext j ∉ existing) →
      mkCand stem ext (findFreeIdx existing stem ext i fuel) ∉ existing ∧
      i ≤ findFreeIdx existing stem ext i fuel ∧
      ∀ m, i ≤ m → m < findFreeIdx existing stem ext i fuel →
        mkCand stem ext m ∈ existing := by
  intro fuel
  induction fuel with
  | zero =>
    rintro i ⟨j, h1, h2, h3⟩
    have hji : j = i := by omega
    subst hji
    simp only [findFreeIdx]
    exact ⟨h3, le_refl _, fun m hm1 hm2 => by omega⟩
  | succ fuel ih =>
    rintro i ⟨j, h1, h2, h3⟩
    simp only [findFreeIdx]
    by_cases hmem : mkCand stem ext i ∈ existing
    · rw [if_pos hmem]
      have hj : i + 1 ≤ j := by
        rcases Nat.eq_or_lt_of_le h1 with rfl | h'
        · exact absurd hmem h3
        · omega
      obtain ⟨hfree, hge, hall⟩ := ih (i + 1) ⟨j, hj, by omega, h3⟩
      refine ⟨hfree, by omega, ?_⟩
      intro m hm1 hm2
      rcases Nat.eq_or_lt_of_le hm1 with rfl | h'
      · exact hmem
      · exact hall m h' hm2
    · rw [if_neg hmem]
      exact ⟨hmem, le_refl _, fun m hm1 hm2 => by omega⟩

/-- C9: when the sanitized target name already exists, the collision loop
returns `stem (n)+ext` for the smallest positive `n` whose candidate is
absent from the (fixed) directory listing. -/
theorem C9_collision_least_counter (existing : List String) (stem ext : String)
    (h : stem ++ ext ∈ existing) :
    ∃ n, 0 < n ∧
      resolve_collision existing stem ext = mkCand stem ext n ∧
      mkCand stem ext n ∉ existing ∧
      ∀ m, 0 < m → m < n → mkCand stem ext m ∈ existing := by
  obtain ⟨j, hj1, hj2, hj3⟩ := exists_free_mkCand existing stem ext
  obtain ⟨hfree, hge, hall⟩ := findFreeIdx_spec existing stem ext
    (existing.length + 1) 1 ⟨j, hj1, by omega, hj3⟩
  refine ⟨findFreeIdx existing stem ext 1 (existing.length + 1), by omega, ?_, hfree, ?_⟩
  · unfold resolve_collision
    rw [if_pos h]
  · intro m hm1 hm2
    exact hall m hm1 hm2

/-- Witness for C9: with `a.mp4` and `a (1).mp4` present, the loop's
result is characterized by the theorem (concretely it picks `a (2).mp4`). -/
theorem C9_collision_least_counter_witness :
    ∃ n, 0 < n ∧
      resolve_collision ["a.mp4", "a (1).mp4"] "a" ".mp4" = mkCand "a" ".mp4" n ∧
      mkCand "a" ".mp4" n ∉ ["a.mp4", "a (1).mp4"] ∧
      ∀ m, 0 < m → m < n → mkCand "a" ".mp4" m ∈ ["a.mp4", "a (1).mp4"] :=
  C9_collision_least_counter ["a.mp4", "a (1).mp4"] "a" ".mp4" (by decide)

/- ------------------------------------------------------------------ -/
/- Dict / list lemmas for the parser, and C1.                         -/
/- ------------------------------------------------------------------ -/

/-- A key with no occurrence in an association list looks up to nothing. -/
theorem lookup_eq_none_of_any_false {x : String} :
    ∀ {m : List (String × String)}, m.any (fun p => p.1 == x) = false →
      List.lookup x m = none := by
  intro m
  induction m with
  | nil => intro _; rfl
  | cons p t ih =>
    obtain ⟨k', v'⟩ := p
    intro h
    simp only [List.any_cons, Bool.or_eq_false_iff] at h
    have hpx : (x == k') = false := by
      have h1 := h.1
      simp only [beq_eq_false_iff_ne] at h1 ⊢
      exact fun hx => h1 hx.symm
    simp [List.lookup, hpx, ih h.2]

/-- Lookup through the in-place value replacement of `pyDictInsert`. -/
theorem lookup_map_replace (k₀ v₀ k : String) :
    ∀ m : List (String × String),
      List.lookup k (m.map (fun p => if p.1 == k₀ then (k₀, v₀) else p)) =
        if k₀ == k then
          (if m.any (fun p => p.1 == k₀) then some v₀ else List.lookup k m)
        else List.lookup k m := by
  intro m
  induction m with
  | nil => by_cases h : k₀ = k <;> simp [h]
  | cons p t ih =>
    obtain ⟨k', v'⟩ := p
    simp only [List.map_cons, List.any_cons]
    by_cases h₁ : k' = k₀
    · subst h₁
      have hhead : (if ((k', v').1 == k') then (k', v₀) else (k', v')) = (k', v₀) := by
        simp
      simp only [hhead]
      by_cases h₂ : k' = k
      · subst h₂
        simp [List.lookup, ih]
      · have hb₁ : (k == k') = false := beq_eq_false_iff_ne.mpr (fun he => h₂ he.symm)
        have hb₂ : (k' == k) = false := beq_eq_false_iff_ne.mpr h₂
        simp only [List.lookup_cons, hb₁]
        rw [ih]
        simp [hb₂]
    · have hhead : (if ((k', v').1 == k₀) then (k₀, v₀) else (k', v')) = (k', v') := by
        simp [h₁]
      simp only [hhead]
      by_cases h₂ : k₀ = k
      · subst h₂
        have hb₁ : (k₀ == k') = false := beq_eq_false_iff_ne.mpr (fun he => h₁ he.symm)
        have hb₂ : (k' == k₀) = false := beq_eq_false_iff_ne.mpr h₁
        simp only [List.lookup_cons, hb₁]
        rw [ih, hb₂]
        rw [Bool.false_or]
      · by_cases hk : k = k'
        · subst hk
          have hb₂ : (k == k₀) = false := beq_eq_false_iff_ne.mpr (fun he => h₂ he.symm)
          have hb₃ : (k₀ == k) = false := beq_eq_false_iff_ne.mpr h₂
          simp [List.lookup, hb₂, hb₃, h₁, h₂, ih]
        · have hbk : (k == k') = false := beq_eq_false_iff_ne.mpr hk
          have hb₃ : (k₀ == k) = false := beq_eq_false_iff_ne.mpr h₂
          simp only [List.lookup_cons, hbk]
          rw [ih]
          simp [hb₃]

/-- Lookup after one Python-dict insertion: the inserted key now maps to
the inserted value, all other keys are untouched. -/
theorem lookup_pyDictInsert (m : List (String × String)) (kv : String × String)
    (k : String) :
    List.lookup k (pyDictInsert m kv) =
      if kv.1 == k then some kv.2 else List.lookup k m := by
  obtain ⟨k₀, v₀⟩ := kv
  unfold pyDictInsert
  by_cases hany : m.any (fun p => p.1 == k₀)
  · simp only [hany, if_true]
    rw [show (fun p : String × String => if p.1 == (k₀, v₀).1 then (k₀, v₀) else p) =
      (fun p => if p.1 == k₀ then (k₀, v₀) else p) from rfl]
    rw [lookup_map_replace, hany]
    simp
  · rw [Bool.not_eq_true] at hany
    simp only [hany, Bool.false_eq_true, if_false]
    rw [List.lookup_append]
    cases hk : (k₀ == k)
    · have hkk₀ : (k == k₀) = false := by
        simp only [beq_eq_false_iff_ne] at hk ⊢
        exact fun he => hk he.symm
      simp [List.lookup, hkk₀]
    · have hkeq : k₀ = k := by simpa [beq_iff_eq] using hk
      subst hkeq
      rw [lookup_eq_none_of_any_false hany]
      simp [List.lookup]

/-- Lookup in a folded Python dict: the last pair with the key wins,
falling back to the accumulator. -/
theorem lookup_pyDict_fold (k : String) :
    ∀ (pairs : List (String × String)) (acc : List (String × String)),
      List.lookup k (pairs.foldl pyDictInsert acc) =
        (Option.map Prod.snd (pairs.reverse.find? (fun p => p.1 == k))).or
          (List.lookup k acc) := by
  intro pairs
  induction pairs with
  | nil => simp
  | cons p t ih =>
    intro acc
    simp only [List.foldl_cons, List.reverse_cons]
    rw [ih, List.find?_append, lookup_pyDictInsert]
    cases hfind : t.reverse.find? (fun p => p.1 == k) with
    | some q => simp
    | none =>
      cases hp : (p.1 == k) <;> simp [List.find?, hp]

/-- Lookup in a Python dict built from a pair list: the value of the last
pair carrying the key. -/
theorem lookup_pyDict (pairs : List (String × String)) (k : String) :
    List.lookup k (pyDict pairs) =
      Option.map Prod.snd (pairs.reverse.find? (fun p => p.1 == k)) := by
  rw [pyDict, lookup_pyDict_fold]
  simp [List.lookup]

/-- The head of a filtered list is the first match. -/
theorem head?_filter_eq_find? {α : Type} (p : α → Bool) :
    ∀ l : List α, (l.filter p).head? = l.find? p := by
  intro l
  induction l with
  | nil => rfl
  | cons a t ih =>
    rw [List.filter_cons, List.find?]
    cases hp : p a <;> simp [hp, ih]

/-- The last match of a filter is the first match from the rear. -/
theorem getLast?_filter_eq_find?_reverse {α : Type} (p : α → Bool) (l : List α) :
    (l.filter p).getLast? = l.reverse.find? p := by
  rw [List.getLast?_eq_head?_reverse, ← List.filter_reverse]
  exact head?_filter_eq_find? p l.reverse

/-- Searching a filtered list is searching with the conjunction. -/
theorem find?_filter {α : Type} (p q : α → Bool) :
    ∀ l : List α, (l.filter q).find? p = l.find? (fun a => q a && p a) := by
  intro l
  induction l with
  | nil => rfl
  | cons a t ih =>
    rw [List.filter_cons]
    cases hq : q a
    · simp [List.find?, hq, ih]
    · rw [List.find?]
      cases hp : p a <;> simp [List.find?, hp, hq, ih]

/-- Correctness of the Python substring test. -/
theorem listContainsSub_iff (needle : List Char) :
    ∀ hay : List Char, listContainsSub needle hay = true ↔
      ∃ a b, hay = a ++ needle ++ b := by
  intro hay
  induction hay with
  | nil =>
    simp only [listContainsSub, List.isEmpty_iff]
    constructor
    · intro h
      exact ⟨[], [], by simp [h]⟩
    · rintro ⟨a, b, hab⟩
      have h' : a ++ needle ++ b = [] := hab.symm
      rw [List.append_eq_nil] at h'
      obtain ⟨h1, -⟩ := h'
      rw [List.append_eq_nil] at h1
      exact h1.2
  | cons c rest ih =>
    simp only [listContainsSub, Bool.or_eq_true]
    constructor
    · rintro (h | h)
      · obtain ⟨t, ht⟩ := List.isPrefixOf_iff_prefix.mp h
        exact ⟨[], t, by simp [← ht]⟩
      · obtain ⟨a, b, hab⟩ := ih.mp h
        exact ⟨c :: a, b, by simp [hab]⟩
    · rintro ⟨a, b, hab⟩
      cases a with
      | nil =>
        left
        apply List.isPrefixOf_iff_prefix.mpr
        exact ⟨b, by simpa using hab.symm⟩
      | cons a' t =>
        right
        apply ih.mpr
        obtain ⟨-, h2⟩ := (by simpa using hab : c = a' ∧ rest = t ++ (needle ++ b))
        exact ⟨t, b, by simp [h2]⟩

/-- A decimal digit is not whitespace. -/
theorem isDigit_not_pySpace {c : Char} (h : c.isDigit = true) :
    isPySpace c = false := by
  have hb : 48 ≤ c.toNat ∧ c.toNat ≤ 57 := by
    simp only [Char.isDigit, Bool.and_eq_true, decide_eq_true_eq] at h
    exact ⟨h.1, h.2⟩
  cases hsp : isPySpace c
  · rfl
  · exfalso
    simp only [isPySpace, Bool.or_eq_true, Bool.and_eq_true, beq_iff_eq,
      decide_eq_true_eq] at hsp
    omega

/-- The source's regex test `^\s*\d+` holds exactly on the claim's
candidate rows (some leading whitespace, then a digit run). -/
theorem reMatch_iff_candidate (line : String) :
    reMatchLeadingDigits line = true ↔ ClaimCandidateRow line := by
  constructor
  · intro h
    rw [reMatchLeadingDigits] at h
    split at h
    · exact absurd h (by simp)
    · rename_i c r heq
      refine ⟨line.data.takeWhile isPySpace, [c], r, ?_, ?_, by simp, ?_⟩
      · rw [List.append_assoc, List.singleton_append, ← heq,
          List.takeWhile_append_dropWhile]
      · intro x hx
        exact List.mem_takeWhile_imp hx
      · intro x hx
        rw [List.mem_singleton] at hx
        subst hx
        exact h
  · rintro ⟨w, d, rest, heq, hw, hd, hdig⟩
    cases d with
    | nil => exact absurd rfl hd
    | cons c d' =>
      have hcdig : c.isDigit = true := hdig c (List.mem_cons_self _ _)
      rw [reMatchLeadingDigits, heq, List.append_assoc, List.dropWhile_append]
      have hwnil : w.dropWhile isPySpace = [] := by
        rw [List.dropWhile_eq_nil_iff]
        exact fun x hx => hw x hx
      rw [hwnil]
      simp only [List.isEmpty_nil, if_true, List.cons_append, List.dropWhile_cons,
        isDigit_not_pySpace hcdig]
      simp [hcdig]

/-- The source video filter coincides with the claim's video
classification. -/
theorem videoEligible_iff (res_list : List String) (line : String) :
    videoEligible res_list line = true ↔ ClaimVideoRow res_list line := by
  simp only [videoEligible, Bool.and_eq_true, ClaimVideoRow, pyContains,
    List.any_eq_true, listContainsSub_iff, reMatch_iff_candidate, IsSubstring]
  tauto

/-- The source audio filter coincides with the claim's audio
classification. -/
theorem audioEligible_iff (line : String) :
    audioEligible line = true ↔ ClaimAudioRow line := by
  simp only [audioEligible, Bool.and_eq_true, ClaimAudioRow, pyContains,
    listContainsSub_iff, reMatch_iff_candidate, IsSubstring]

/-- C1: a key of the video mapping holds the last line of the input that
passes the video filter with that first token (and likewise for audio),
and the filters are exactly the claim's classifications: a candidate row
(leading whitespace then digits) containing "video" case-insensitively and
a resolution token for video, or containing "audio only" case-insensitively
for audio; a line passing neither filter reaches neither mapping. -/
theorem C1_parse_available_classification (raw res k : String) :
    (List.lookup k (parse_available raw res).1 =
      ((pySplitlines raw).filter
        (fun l => videoEligible (pySplitWs res) l && (pyFirstToken l == k))).getLast?) ∧
    (List.lookup k (parse_available raw res).2 =
      ((pySplitlines raw).filter
        (fun l => audioEligible l && (pyFirstToken l == k))).getLast?) ∧
    (∀ l, videoEligible (pySplitWs res) l = true ↔ ClaimVideoRow (pySplitWs res) l) ∧
    (∀ l, audioEligible l = true ↔ ClaimAudioRow l) := by
  refine ⟨?_, ?_, fun l => videoEligible_iff _ l, fun l => audioEligible_iff l⟩
  · rw [parse_available, lookup_pyDict, ← List.map_reverse, List.find?_map,
      getLast?_filter_eq_find?_reverse, ← List.filter_reverse, find?_filter]
    cases hf : (pySplitlines raw).reverse.find?
        (fun a => videoEligible (pySplitWs res) a && (pyFirstToken a == k)) <;>
      simp [Function.comp, hf]
  · rw [parse_available, lookup_pyDict, ← List.map_reverse, List.find?_map,
      getLast?_filter_eq_find?_reverse, ← List.filter_reverse, find?_filter]
    cases hf : (pySplitlines raw).reverse.find?
        (fun a => audioEligible a && (pyFirstToken a == k)) <;>
      simp [Function.comp, hf]

/-- Witness for C1 on the concrete rows of the spec's own example. -/
theorem C1_parse_available_classification_witness :
    List.lookup "140"
      (parse_available "140 m4a audio only 128k\n399 mp4 1080p video" RESOLUTIONS).2 =
      ((pySplitlines "140 m4a audio only 128k\n399 mp4 1080p video").filter
        (fun l => audioEligible l && (pyFirstToken l == "140"))).getLast? :=
  (C1_parse_available_classification
    "140 m4a audio only 128k\n399 mp4 1080p video" RESOLUTIONS "140").2.1

/- ------------------------------------------------------------------ -/
/- List/scan lemmas for the URL model.                                -/
/- ------------------------------------------------------------------ -/

/-- `takeWhile` keeps a list all of whose members pass. -/
theorem takeWhile_eq_self_of_all {α : Type} {p : α → Bool} :
    ∀ {l : List α}, (∀ x ∈ l, p x = true) → l.takeWhile p = l := by
  intro l
  induction l with
  | nil => intro _; rfl
  | cons a t ih =>
    intro h
    rw [List.takeWhile_cons, if_pos (h a (List.mem_cons_self _ _))]
    rw [ih (fun x hx => h x (List.mem_cons_of_mem _ hx))]

/-- `takeWhile` walks through an all-passing prefix. -/
theorem takeWhile_append_of_all {α : Type} {p : α → Bool} {a : List α}
    (h : ∀ x ∈ a, p x = true) (b : List α) :
    (a ++ b).takeWhile p = a ++ b.takeWhile p := by
  induction a with
  | nil => simp
  | cons x t ih =>
    rw [List.cons_append, List.takeWhile_cons, if_pos (h x (List.mem_cons_self _ _)),
      ih (fun y hy => h y (List.mem_cons_of_mem _ hy))]
    rfl

/-- `dropWhile` runs past an all-passing prefix. -/
theorem dropWhile_append_of_all {α : Type} {p : α → Bool} {a : List α}
    (h : ∀ x ∈ a, p x = true) (b : List α) :
    (a ++ b).dropWhile p = b.dropWhile p := by
  induction a with
  | nil => simp
  | cons x t ih =>
    rw [List.cons_append, List.dropWhile_cons, if_pos (h x (List.mem_cons_self _ _)),
      ih (fun y hy => h y (List.mem_cons_of_mem _ hy))]

/-- A list avoiding a value does not `contains` it. -/
theorem contains_eq_false_of_forall_ne {α : Type} [BEq α] [LawfulBEq α] {l : List α}
    {a : α} (h : ∀ x ∈ l, ¬x = a) : l.contains a = false := by
  cases hc : l.contains a
  · rfl
  · exact absurd rfl (h a (List.elem_iff.mp hc))

/-- Splitting on a character absent from the text yields one chunk. -/
theorem splitCharList_no_sep {sep : Char} :
    ∀ {l : List Char}, (∀ x ∈ l, ¬x = sep) → splitCharList sep l = [l] := by
  intro l
  induction l with
  | nil => intro _; rfl
  | cons c t ih =>
    intro h
    have hc : (c == sep) = false :=
      beq_eq_false_iff_ne.mpr (h c (List.mem_cons_self _ _))
    rw [splitCharList, if_neg (by simp [hc])]
    rw [ih (fun x hx => h x (List.mem_cons_of_mem _ hx))]

/-- `splitCharList` over a separator-free prefix prepends it to the first
chunk. -/
theorem splitCharList_append {sep : Char} {a : List Char}
    (h : ∀ x ∈ a, ¬x = sep) (b : List Char) :
    ∃ s ss, splitCharList sep b = s :: ss ∧
      splitCharList sep (a ++ b) = (a ++ s) :: ss := by
  induction a with
  | nil =>
    cases hb : splitCharList sep b with
    | nil =>
      exfalso
      induction b with
      | nil => simp [splitCharList] at hb
      | cons c t ihb =>
        rw [splitCharList] at hb
        split at hb
        · simp at hb
        · revert hb
          cases splitCharList sep t <;> intro hb <;> simp at hb
    | cons s ss => exact ⟨s, ss, rfl, by simpa using hb⟩
  | cons c t ih =>
    obtain ⟨s, ss, hb, hab⟩ := ih (fun x hx => h x (List.mem_cons_of_mem _ hx))
    have hc : (c == sep) = false :=
      beq_eq_false_iff_ne.mpr (h c (List.mem_cons_self _ _))
    refine ⟨s, ss, hb, ?_⟩
    rw [List.cons_append, splitCharList, if_neg (by simp [hc]), hab]
    simp

/-- `unquote` is the identity on percent-free text. -/
theorem unquote_eq_self : ∀ {l : List Char}, (∀ x ∈ l, ¬x = '%') →
    unquote l = l := by
  intro l
  induction l with
  | nil => intro _; rfl
  | cons c t ih =>
    intro h
    have hc : (c == '%') = false :=
      beq_eq_false_iff_ne.mpr (h c (List.mem_cons_self _ _))
    have hstep : unquote (c :: t) = c :: unquote t := by
      rw [unquote.eq_def]
      simp [hc]
    rw [hstep, ih (fun x hx => h x (List.mem_cons_of_mem _ hx))]

/-- `unquote_plus` is the identity on text free of `+` and `%`. -/
theorem unquotePlus_eq_self {l : List Char}
    (h : ∀ x ∈ l, ¬x = '+' ∧ ¬x = '%') : unquotePlus l = l := by
  rw [unquotePlus]
  have hmap : ∀ l' : List Char, (∀ x ∈ l', ¬x = '+') →
      l'.map (fun c => if c == '+' then ' ' else c) = l' := by
    intro l'
    induction l' with
    | nil => intro _; rfl
    | cons c t ih =>
      intro hl
      have hc : (c == '+') = false :=
        beq_eq_false_iff_ne.mpr (hl c (List.mem_cons_self _ _))
      rw [List.map_cons, if_neg (by simp [hc]),
        ih (fun x hx => hl x (List.mem_cons_of_mem _ hx))]
  rw [hmap l (fun x hx => (h x hx).1)]
  exact unquote_eq_self (fun x hx => (h x hx).2)

/-- The shorts scan finds nothing in separator-free text. -/
theorem afterShortsGo_none : ∀ (fuel : ℕ) {ys : List Char},
    listContainsSub SHORTS_SEP ys = false → afterShortsGo fuel ys = none := by
  intro fuel
  induction fuel with
  | zero => intro ys _; rfl
  | succ fuel ih =>
    intro ys h
    cases ys with
    | nil => rfl
    | cons c rest =>
      rw [listContainsSub, Bool.or_eq_false_iff] at h
      rw [afterShortsGo, if_neg (by simp [h.1])]
      exact ih h.2

/-- The shorts scan on `"/shorts/" ++ tail` with no further separator
occurrence returns `tail`. -/
theorem afterShortsGo_append (fuel : ℕ) {tail : List Char}
    (h : listContainsSub SHORTS_SEP tail = false) :
    afterShortsGo (fuel + 1) (SHORTS_SEP ++ tail) = some tail := by
  have hsep : SHORTS_SEP ++ tail = '/' :: ("shorts/".data ++ tail) := rfl
  rw [hsep, afterShortsGo]
  have hpre : SHORTS_SEP.isPrefixOf ('/' :: ("shorts/".data ++ tail)) = true := by
    rw [← hsep]
    exact List.isPrefixOf_iff_prefix.mpr (List.prefix_append _ _)
  rw [if_pos hpre]
  have hdrop : ('/' :: ("shorts/".data ++ tail)).drop 8 = tail := by
    rw [← hsep, show (8 : ℕ) = SHORTS_SEP.length from rfl, List.drop_left]
  rw [hdrop]
  simp only [afterShortsGo_none fuel h]

/-- `pySplitLastShorts` on `"/shorts/" ++ tail` with no further separator
occurrence returns `tail`. -/
theorem pySplitLastShorts_append {tail : List Char}
    (h : listContainsSub SHORTS_SEP tail = false) :
    pySplitLastShorts (SHORTS_SEP ++ tail) = tail := by
  rw [pySplitLastShorts]
  have hlen : (SHORTS_SEP ++ tail).length = (7 + tail.length) + 1 := by
    rw [List.length_append, show SHORTS_SEP.length = 8 from rfl]
    omega
  rw [hlen, afterShortsGo_append _ h]
  rfl

/-- Packing two character lists into strings and appending agrees with
appending the lists. -/
theorem mk_data_append (s t : String) :
    String.mk (s.data ++ t.data) = s ++ t := rfl

/-- `parse_qs` on the canonical query `v=<id>`: when the identifier is
nonempty and free of `& % +`, the first value bound to `v` is the
identifier itself. -/
theorem qsFirstV_clean {id : List Char} (hne : id ≠ [])
    (hclean : ∀ c ∈ id, ¬c = '&' ∧ ¬c = '%' ∧ ¬c = '+') :
    qsFirstV ('v' :: '=' :: id) = some id := by
  rw [qsFirstV]
  have hsplit : splitCharList '&' ('v' :: '=' :: id) = ['v' :: '=' :: id] := by
    apply splitCharList_no_sep
    intro x hx
    rcases List.mem_cons.mp hx with rfl | hx'
    · decide
    · rcases List.mem_cons.mp hx' with rfl | hx''
      · decide
      · exact (hclean x hx'').1
  rw [hsplit, parseQsFirst]
  rw [if_neg (by simp)]
  have hdrop : ('v' :: '=' :: id).dropWhile (fun c => c != '=') = '=' :: id := by
    simp [List.dropWhile_cons]
  rw [hdrop]
  show (if id.isEmpty = true then parseQsFirst ['v'] []
      else
        if unquotePlus (List.takeWhile (fun c => c != '=') ('v' :: '=' :: id)) = ['v'] then
          some (unquotePlus id)
        else parseQsFirst ['v'] []) = some id
  rw [if_neg (by simp [List.isEmpty_iff, hne])]
  have htake : ('v' :: '=' :: id).takeWhile (fun c => c != '=') = ['v'] := by
    simp [List.takeWhile_cons]
  rw [htake]
  rw [if_pos (show unquotePlus ['v'] = ['v'] from rfl)]
  rw [unquotePlus_eq_self (fun x hx => ⟨(hclean x hx).2.2, (hclean x hx).2.1⟩)]

/-- The parse of `https://<host>/watch?v=<id>` for a host free of netloc
terminators and brackets and an identifier free of `tab CR LF #`:
netloc `<host>`, path `/watch`, query `v=<id>`. -/
theorem pyUrlparse_watch (host id : List Char)
    (hh : ∀ c ∈ host, (¬c = '\t' ∧ ¬c = '\r' ∧ ¬c = '\n') ∧ netlocDelim c = false ∧
      ¬c = '[' ∧ ¬c = ']')
    (hi : ∀ c ∈ id, (¬c = '\t' ∧ ¬c = '\r' ∧ ¬c = '\n') ∧ ¬c = '#') :
    pyUrlparse ("https://".data ++ (host ++ ("/watch?v=".data ++ id))) =
      some ⟨"https".data, host, "/watch".data, 'v' :: '=' :: id⟩ := by
  have hL : "https://".data ++ (host ++ ("/watch?v=".data ++ id)) =
      'h' :: 't' :: 't' :: 'p' :: 's' :: ':' :: '/' :: '/' ::(host ++ ("/watch?v=".data ++ id)) := rfl
  have hBid : "/watch?v=".data ++ id = '/' :: 'w' :: 'a' :: 't' :: 'c' :: 'h' :: '?' :: 'v' :: '=' ::id := rfl
  simp only [pyUrlparse]
  -- the WHATWG lstrip keeps everything: the first character is 'h'
  rw [hL, List.dropWhile_cons, if_neg (by decide)]
  -- tab/CR/LF removal keeps everything
  rw [List.filter_eq_self.mpr ?hfil]
  case hfil =>
    intro a ha
    rw [← hL] at ha
    rcases List.mem_append.mp ha with ha' | ha'
    · fin_cases ha' <;> decide
    · rcases List.mem_append.mp ha' with ha'' | ha''
      · obtain ⟨⟨h1, h2, h3⟩, -, -, -⟩ := hh a ha''
        simp [beq_eq_false_iff_ne.mpr h1, beq_eq_false_iff_ne.mpr h2,
          beq_eq_false_iff_ne.mpr h3]
      · rcases List.mem_append.mp ha'' with ha3 | ha3
        · fin_cases ha3 <;> decide
        · obtain ⟨⟨h1, h2, h3⟩, -⟩ := hi a ha3
          simp [beq_eq_false_iff_ne.mpr h1, beq_eq_false_iff_ne.mpr h2,
            beq_eq_false_iff_ne.mpr h3]
  -- scheme split: "https" before the first colon
  rw [show splitScheme ('h' :: 't' :: 't' :: 'p' :: 's' :: ':' :: '/' :: '/' ::
        (host ++ ("/watch?v=".data ++ id))) =
      ("https".data, '/' :: '/' ::(host ++ ("/watch?v=".data ++ id))) from ?hscheme]
  case hscheme =>
    rw [splitScheme]
    have hdropc : ('h' :: 't' :: 't' :: 'p' :: 's' :: ':' :: '/' :: '/' ::
        (host ++ ("/watch?v=".data ++ id))).dropWhile (fun c => c != ':') =
        ':' :: '/' :: '/' ::(host ++ ("/watch?v=".data ++ id)) := by
      simp [List.dropWhile_cons]
    have htakec : ('h' :: 't' :: 't' :: 'p' :: 's' :: ':' :: '/' :: '/' ::
        (host ++ ("/watch?v=".data ++ id))).takeWhile (fun c => c != ':') =
        "https".data := by
      simp [List.takeWhile_cons]
    rw [hdropc, htakec]
    rfl
  -- netloc is the host, terminated by the path slash
  simp only []
  rw [show (host ++ ("/watch?v=".data ++ id)).takeWhile (fun c => !netlocDelim c) =
      host from ?hnet]
  case hnet =>
    rw [takeWhile_append_of_all (fun x hx => by simp [(hh x hx).2.1]) _, hBid]
    rw [List.takeWhile_cons, if_neg (by decide), List.append_nil]
  rw [show (host ++ ("/watch?v=".data ++ id)).dropWhile (fun c => !netlocDelim c) =
      '/' :: 'w' :: 'a' :: 't' :: 'c' :: 'h' :: '?' :: 'v' :: '=' ::id from ?hrest]
  case hrest =>
    rw [dropWhile_append_of_all (fun x hx => by simp [(hh x hx).2.1]) _, hBid]
    rw [List.dropWhile_cons, if_neg (by decide)]
  rw [if_neg ?hbr]
  case hbr =>
    rw [contains_eq_false_of_forall_ne (fun x hx => (hh x hx).2.2.1),
      contains_eq_false_of_forall_ne (fun x hx => (hh x hx).2.2.2)]
    simp
  -- no fragment: everything is left of any '#'
  rw [show ('/' :: 'w' :: 'a' :: 't' :: 'c' :: 'h' :: '?' :: 'v' :: '=' ::id).takeWhile
      (fun c => c != '#') = '/' :: 'w' :: 'a' :: 't' :: 'c' :: 'h' :: '?' :: 'v' :: '=' ::id from ?hfr]
  case hfr =>
    apply takeWhile_eq_self_of_all
    intro x hx
    rw [← hBid] at hx
    rcases List.mem_append.mp hx with hx' | hx'
    · fin_cases hx' <;> decide
    · simp [bne_iff_ne, (hi x hx').2]
  -- query split at the concrete '?'
  rw [show ('/' :: 'w' :: 'a' :: 't' :: 'c' :: 'h' :: '?' :: 'v' :: '=' ::id).takeWhile
      (fun c => c != '?') = "/watch".data from by simp [List.takeWhile_cons]]
  rw [show ('/' :: 'w' :: 'a' :: 't' :: 'c' :: 'h' :: '?' :: 'v' :: '=' ::id).dropWhile
      (fun c => c != '?') = '?' :: 'v' :: '=' ::id from by simp [List.dropWhile_cons]]
  rw [show List.drop 1 ('?' :: 'v' :: '=' ::id) = 'v' :: '=' ::id from rfl]
  rw [show splitParamsPath "/watch".data = "/watch".data from by decide]

/-- The parse of `https://<host><path>` for a clean host and a `/`-led
path free of `tab CR LF # ? ;`: netloc `<host>`, the path itself, and an
empty query. -/
theorem pyUrlparse_hostpath (host path : List Char)
    (hh : ∀ c ∈ host, (¬c = '\t' ∧ ¬c = '\r' ∧ ¬c = '\n') ∧ netlocDelim c = false ∧
      ¬c = '[' ∧ ¬c = ']')
    (hp : ∀ c ∈ path, (¬c = '\t' ∧ ¬c = '\r' ∧ ¬c = '\n') ∧ ¬c = '#' ∧ ¬c = '?' ∧
      ¬c = ';')
    (hp0 : ∃ p', path = '/' :: p') :
    pyUrlparse ("https://".data ++ (host ++ path)) =
      some ⟨"https".data, host, path, []⟩ := by
  obtain ⟨p', rfl⟩ := hp0
  have hL : "https://".data ++ (host ++ ('/' :: p')) =
      'h' :: 't' :: 't' :: 'p' :: 's' :: ':' :: '/' :: '/' ::(host ++ ('/' :: p')) := rfl
  simp only [pyUrlparse]
  rw [hL, List.dropWhile_cons, if_neg (by decide)]
  rw [List.filter_eq_self.mpr ?hfil]
  case hfil =>
    intro a ha
    rw [← hL] at ha
    rcases List.mem_append.mp ha with ha' | ha'
    · fin_cases ha' <;> decide
    · rcases List.mem_append.mp ha' with ha'' | ha''
      · obtain ⟨⟨h1, h2, h3⟩, -, -, -⟩ := hh a ha''
        simp [beq_eq_false_iff_ne.mpr h1, beq_eq_false_iff_ne.mpr h2,
          beq_eq_false_iff_ne.mpr h3]
      · obtain ⟨⟨h1, h2, h3⟩, -⟩ := hp a ha''
        simp [beq_eq_false_iff_ne.mpr h1, beq_eq_false_iff_ne.mpr h2,
          beq_eq_false_iff_ne.mpr h3]
  rw [show splitScheme ('h' :: 't' :: 't' :: 'p' :: 's' :: ':' :: '/' :: '/' ::(host ++ ('/' :: p'))) =
      ("https".data, '/' :: '/' ::(host ++ ('/' :: p'))) from ?hscheme]
  case hscheme =>
    rw [splitScheme]
    have hdropc : ('h' :: 't' :: 't' :: 'p' :: 's' :: ':' :: '/' :: '/' ::(host ++ ('/' :: p'))).dropWhile
        (fun c => c != ':') = ':' :: '/' :: '/' ::(host ++ ('/' :: p')) := by
      simp [List.dropWhile_cons]
    have htakec : ('h' :: 't' :: 't' :: 'p' :: 's' :: ':' :: '/' :: '/' ::(host ++ ('/' :: p'))).takeWhile
        (fun c => c != ':') = "https".data := by
      simp [List.takeWhile_cons]
    rw [hdropc, htakec]
    rfl
  simp only []
  rw [show (host ++ ('/' :: p')).takeWhile (fun c => !netlocDelim c) = host from ?hnet]
  case hnet =>
    rw [takeWhile_append_of_all (fun x hx => by simp [(hh x hx).2.1]) _]
    rw [List.takeWhile_cons, if_neg (by decide), List.append_nil]
  rw [show (host ++ ('/' :: p')).dropWhile (fun c => !netlocDelim c) = '/' :: p'
      from ?hrest]
  case hrest =>
    rw [dropWhile_append_of_all (fun x hx => by simp [(hh x hx).2.1]) _]
    rw [List.dropWhile_cons, if_neg (by decide)]
  rw [if_neg ?hbr]
  case hbr =>
    rw [contains_eq_false_of_forall_ne (fun x hx => (hh x hx).2.2.1),
      contains_eq_false_of_forall_ne (fun x hx => (hh x hx).2.2.2)]
    simp
  rw [show List.takeWhile (fun c => c != '#') ('/' :: p') = '/' :: p' from
    takeWhile_eq_self_of_all
      (fun x hx => by simp only [bne_iff_ne, ne_eq, decide_eq_true_eq]; exact (hp x hx).2.1)]
  rw [show List.takeWhile (fun c => c != '?') ('/' :: p') = '/' :: p' from
    takeWhile_eq_self_of_all
      (fun x hx => by simp only [bne_iff_ne, ne_eq, decide_eq_true_eq]; exact (hp x hx).2.2.1)]
  rw [show List.dropWhile (fun c => c != '?') ('/' :: p') = [] from
    List.dropWhile_eq_nil_iff.mpr
      (fun x hx => by simp only [bne_iff_ne, ne_eq, decide_eq_true_eq]; exact (hp x hx).2.2.1)]
  rw [show List.drop 1 ([] : List Char) = [] from rfl]
  rw [show splitParamsPath ('/' :: p') = '/' :: p' from ?hpar]
  case hpar =>
    rw [splitParamsPath, if_neg ?hsemi]
    case hsemi =>
      rw [contains_eq_false_of_forall_ne (fun x hx => (hp x hx).2.2.2)]
      simp

/-- A scalar above 0x20 is not tab, CR or LF. -/
theorem charAbove20_not_removed {c : Char} (h : 0x20 < c.toNat) :
    ¬c = '\t' ∧ ¬c = '\r' ∧ ¬c = '\n' := by
  refine ⟨?_, ?_, ?_⟩ <;> rintro rfl <;> exact absurd h (by decide)

/-- Unpacking the C5 host hypothesis. -/
theorem hostOk_spec {host : String} (h : hostOk host = true) :
    (∀ c ∈ host.data, (¬c = '\t' ∧ ¬c = '\r' ∧ ¬c = '\n') ∧ netlocDelim c = false ∧
      ¬c = '[' ∧ ¬c = ']') ∧
    listContainsSub "youtube.com".data (host.data.map Char.toLower) = true := by
  rw [hostOk, Bool.and_eq_true, List.all_eq_true] at h
  refine ⟨?_, h.2⟩
  intro c hc
  have hcb := h.1 c hc
  simp only [Bool.and_eq_true, decide_eq_true_eq, Bool.not_eq_true'] at hcb
  obtain ⟨⟨h1, -⟩, h3⟩ := hcb
  have hmem : ¬c ∈ ['/', '?', '#', '[', ']'] := by
    intro hm
    exact absurd (List.elem_iff.mpr hm) (ne_true_of_eq_false h3)
  refine ⟨charAbove20_not_removed h1, ?_, ?_, ?_⟩
  · rw [netlocDelim]
    simp only [Bool.or_eq_false_iff, beq_eq_false_iff_ne]
    refine ⟨⟨?_, ?_⟩, ?_⟩ <;> intro he <;> exact hmem (by simp [he])
  · intro he
    exact hmem (by simp [he])
  · intro he
    exact hmem (by simp [he])

/-- Unpacking the C5 watch-identifier hypothesis. -/
theorem queryIdOk_spec {id : String} (h : queryIdOk id = true) :
    id.data ≠ [] ∧ ∀ c ∈ id.data, (¬c = '\t' ∧ ¬c = '\r' ∧ ¬c = '\n') ∧ ¬c = '#' ∧
      ¬c = '&' ∧ ¬c = '%' ∧ ¬c = '+' := by
  rw [queryIdOk, Bool.and_eq_true, List.all_eq_true] at h
  refine ⟨by simpa [List.isEmpty_iff] using h.1, ?_⟩
  intro c hc
  have hcb := h.2 c hc
  simp only [Bool.and_eq_true, decide_eq_true_eq, Bool.not_eq_true'] at hcb
  obtain ⟨⟨h1, -⟩, h3⟩ := hcb
  have hmem : ¬c ∈ ['&', '#', '%', '+'] := by
    intro hm
    exact absurd (List.elem_iff.mpr hm) (ne_true_of_eq_false h3)
  refine ⟨charAbove20_not_removed h1, ?_, ?_, ?_, ?_⟩ <;> intro he <;>
    exact hmem (by simp [he])

/-- Unpacking the C5 path-identifier hypothesis. -/
theorem pathIdOk_spec {id : String} (h : pathIdOk id = true) :
    id.data ≠ [] ∧ ∀ c ∈ id.data, (¬c = '\t' ∧ ¬c = '\r' ∧ ¬c = '\n') ∧ ¬c = '/' ∧
      ¬c = '?' ∧ ¬c = '#' ∧ ¬c = ';' := by
  rw [pathIdOk, Bool.and_eq_true, List.all_eq_true] at h
  refine ⟨by simpa [List.isEmpty_iff] using h.1, ?_⟩
  intro c hc
  have hcb := h.2 c hc
  simp only [Bool.and_eq_true, decide_eq_true_eq, Bool.not_eq_true'] at hcb
  obtain ⟨⟨h1, -⟩, h3⟩ := hcb
  have hmem : ¬c ∈ ['/', '?', '#', ';'] := by
    intro hm
    exact absurd (List.elem_iff.mpr hm) (ne_true_of_eq_false h3)
  refine ⟨charAbove20_not_removed h1, ?_, ?_, ?_, ?_⟩ <;> intro he <;>
    exact hmem (by simp [he])

/-- Unpacking the C5 path-remainder hypothesis. -/
theorem pathRestOk_spec {rest : String} (h : pathRestOk rest = true) :
    (rest.data = [] ∨ ∃ r', rest.data = '/' :: r') ∧
    ∀ c ∈ rest.data, (¬c = '\t' ∧ ¬c = '\r' ∧ ¬c = '\n') ∧ ¬c = '?' ∧ ¬c = '#' ∧
      ¬c = ';' := by
  rw [pathRestOk, Bool.and_eq_true] at h
  constructor
  · rcases Bool.or_eq_true _ _ |>.mp h.1 with h' | h'
    · exact Or.inl (by simpa [List.isEmpty_iff] using h')
    · right
      cases hr : rest.data with
      | nil => rw [hr] at h'; simp at h'
      | cons c r' =>
        rw [hr] at h'
        simp only [List.head?_cons, Option.some.injEq] at h'
        exact ⟨r', by rw [show c = '/' from by simpa using h']⟩
  · intro c hc
    have hcb := List.all_eq_true.mp h.2 c hc
    simp only [Bool.and_eq_true, decide_eq_true_eq, Bool.not_eq_true'] at hcb
    obtain ⟨⟨h1, -⟩, h3⟩ := hcb
    have hmem : ¬c ∈ ['?', '#', ';'] := by
      intro hm
      exact absurd (List.elem_iff.mpr hm) (ne_true_of_eq_false h3)
    refine ⟨charAbove20_not_removed h1, ?_, ?_, ?_⟩ <;> intro he <;>
      exact hmem (by simp [he])

/-- The identifier branch of the normalizer on a `/watch` parse: look up
`v` in the query. -/
theorem normalizeVid_watch (scheme netloc query : List Char)
    (hrec : listContainsSub "youtube.com".data (netloc.map Char.toLower) = true) :
    normalizeVid ⟨scheme, netloc, "/watch".data, query⟩ = qsFirstV query := by
  simp only [normalizeVid]
  rw [if_pos hrec, if_pos (show "/watch".data.isPrefixOf "/watch".data = true by decide)]

/-- The identifier branch of the normalizer on a `/shorts/<id><rest>`
parse: the segment after the (sole) `/shorts/` occurrence. -/
theorem normalizeVid_shorts (scheme netloc query : List Char) (id rest : List Char)
    (hrec : listContainsSub "youtube.com".data (netloc.map Char.toLower) = true)
    (hid : id ≠ []) (hidslash : ∀ c ∈ id, ¬c = '/')
    (hnosep : listContainsSub SHORTS_SEP (id ++ rest) = false)
    (hrest : rest = [] ∨ ∃ r', rest = '/' :: r') :
    normalizeVid ⟨scheme, netloc, SHORTS_SEP ++ (id ++ rest), query⟩ = some id := by
  simp only [normalizeVid]
  rw [if_pos hrec]
  have hw : "/watch".data.isPrefixOf (SHORTS_SEP ++ (id ++ rest)) = false := by
    rw [show SHORTS_SEP ++ (id ++ rest) = '/' :: 's' ::("horts/".data ++ (id ++ rest))
      from rfl]
    simp [List.isPrefixOf]
  rw [if_neg (by simp [hw])]
  have hs : "/shorts/".data.isPrefixOf (SHORTS_SEP ++ (id ++ rest)) = true :=
    List.isPrefixOf_iff_prefix.mpr (List.prefix_append _ _)
  rw [if_pos hs]
  rw [pySplitLastShorts_append hnosep]
  have htake : (id ++ rest).takeWhile (fun c => c != '/') = id := by
    rw [takeWhile_append_of_all (fun x hx => by
      simp only [bne_iff_ne, ne_eq, decide_eq_true_eq]
      exact hidslash x hx)]
    rcases hrest with rfl | ⟨r', rfl⟩
    · simp
    · rw [List.takeWhile_cons, if_neg (by decide), List.append_nil]
  rw [htake]
  rw [if_neg (by simp [List.isEmpty_iff, hid])]

/-- The identifier branch of the normalizer on a `youtu.be` parse: the
first nonempty path segment. -/
theorem normalizeVid_short_host (scheme query : List Char) (id rest : List Char)
    (hid : id ≠ []) (hidslash : ∀ c ∈ id, ¬c = '/')
    (hrest : rest = [] ∨ ∃ r', rest = '/' :: r') :
    normalizeVid ⟨scheme, "youtu.be".data, '/' :: (id ++ rest), query⟩ = some id := by
  simp only [normalizeVid]
  rw [show ("youtu.be".data.map Char.toLower) = "youtu.be".data from rfl]
  rw [if_neg (by decide)]
  rw [if_pos (show ("youtu.be".data : List Char) = "youtu.be".data from rfl)]
  have hsplit0 : splitCharList '/' ('/' :: (id ++ rest)) =
      [] :: splitCharList '/' (id ++ rest) := by
    rw [splitCharList, if_pos (by decide)]
  rcases hrest with rfl | ⟨r', rfl⟩
  · rw [hsplit0, List.append_nil, splitCharList_no_sep hidslash]
    rw [List.filter_cons, List.filter_cons]
    simp [List.isEmpty_iff, hid]
  · obtain ⟨s, ss, hb, hab⟩ := splitCharList_append hidslash ('/' :: r')
    have hb' : splitCharList '/' ('/' :: r') = [] :: splitCharList '/' r' := by
      rw [splitCharList, if_pos (by decide)]
    rw [hb'] at hb
    obtain ⟨rfl, rfl⟩ : s = [] ∧ ss = splitCharList '/' r' := by
      injection hb with h1 h2
      exact ⟨h1.symm, h2.symm⟩
    rw [hsplit0, hab, List.append_nil]
    rw [List.filter_cons, List.filter_cons]
    simp [List.isEmpty_iff, hid]

/-- The successful path of `normalize_youtube_link`, assembled. -/
theorem normalize_eq_of (s : String) (u : PyUrl) (v : List Char)
    (hp : pyUrlparse s.data = some u) (hv : normalizeVid u = some v) (hne : v ≠ []) :
    normalize_youtube_link s =
      some (String.mk ("https://www.youtube.com/watch?v=".data ++ v)) := by
  simp only [normalize_youtube_link, hp, hv]
  rw [if_neg (by simp [List.isEmpty_iff, hne])]

/-- The failing path of `normalize_youtube_link` when no identifier is
extracted. -/
theorem normalize_none_of (s : String) (u : PyUrl)
    (hp : pyUrlparse s.data = some u) (hv : normalizeVid u = none) :
    normalize_youtube_link s = none := by
  simp only [normalize_youtube_link, hp, hv]

/-- Every run of the normalizer returns nothing or a canonical watch URL
with a nonempty identifier (shared shape lemma for C7 and C8). -/
theorem normalize_output_shape (s : String) :
    normalize_youtube_link s = none ∨
    ∃ id : List Char, id ≠ [] ∧
      normalize_youtube_link s =
        some (String.mk ("https://www.youtube.com/watch?v=".data ++ id)) := by
  cases hp : pyUrlparse s.data with
  | none => exact Or.inl (by simp only [normalize_youtube_link, hp])
  | some u =>
    cases hv : normalizeVid u with
    | none => exact Or.inl (normalize_none_of s u hp hv)
    | some v =>
      cases hemp : v.isEmpty
      · refine Or.inr ⟨v, by simpa [List.isEmpty_iff] using hemp, ?_⟩
        exact normalize_eq_of s u v hp hv (by simpa [List.isEmpty_iff] using hemp)
      · exact Or.inl (by simp only [normalize_youtube_link, hp, hv]
                         rw [if_pos (by simp [hemp])])

/-- C5: the three recognized URL forms normalize to the canonical
`https://www.youtube.com/watch?v=<id>`.  Hosts range over printable-ASCII
netlocs whose lowercase form contains `youtube.com` (resp. the literal
`youtu.be`); identifiers over nonempty printable-ASCII text without the
structural characters of their position; `rest` over further path
segments.  The shorts form additionally requires that `/shorts/` not recur
later in the path (the source splits on the last occurrence). -/
theorem C5_normalize_recognized_forms (host id rest : String) :
    (hostOk host = true → queryIdOk id = true →
      normalize_youtube_link ("https://" ++ host ++ "/watch?v=" ++ id) =
        some ("https://www.youtube.com/watch?v=" ++ id)) ∧
    (hostOk host = true → pathIdOk id = true → pathRestOk rest = true →
      listContainsSub SHORTS_SEP (id.data ++ rest.data) = false →
      normalize_youtube_link ("https://" ++ host ++ "/shorts/" ++ id ++ rest) =
        some ("https://www.youtube.com/watch?v=" ++ id)) ∧
    (pathIdOk id = true → pathRestOk rest = true →
      normalize_youtube_link ("https://youtu.be/" ++ id ++ rest) =
        some ("https://www.youtube.com/watch?v=" ++ id)) := by
  refine ⟨?_, ?_, ?_⟩
  · intro hho hqi
    obtain ⟨hh, hrec⟩ := hostOk_spec hho
    obtain ⟨hne, hq⟩ := queryIdOk_spec hqi
    have hdata : ("https://" ++ host ++ "/watch?v=" ++ id).data =
        "https://".data ++ (host.data ++ ("/watch?v=".data ++ id.data)) := by
      simp [String.data_append, List.append_assoc]
    have hp := pyUrlparse_watch host.data id.data hh
      (fun c hc => ⟨(hq c hc).1, (hq c hc).2.1⟩)
    have hmain := normalize_eq_of ("https://" ++ host ++ "/watch?v=" ++ id)
      ⟨"https".data, host.data, "/watch".data, 'v' :: '=' :: id.data⟩ id.data
      (by rw [hdata]; exact hp)
      (by rw [normalizeVid_watch _ _ _ hrec]
          exact qsFirstV_clean hne (fun c hc =>
            ⟨(hq c hc).2.2.1, (hq c hc).2.2.2.1, (hq c hc).2.2.2.2⟩))
      hne
    rw [hmain, mk_data_append]
  · intro hho hpi hpr hnosep
    obtain ⟨hh, hrec⟩ := hostOk_spec hho
    obtain ⟨hne, hq⟩ := pathIdOk_spec hpi
    obtain ⟨hshape, hrq⟩ := pathRestOk_spec hpr
    have hdata : ("https://" ++ host ++ "/shorts/" ++ id ++ rest).data =
        "https://".data ++ (host.data ++ (SHORTS_SEP ++ (id.data ++ rest.data))) := by
      simp [String.data_append, SHORTS_SEP, List.append_assoc]
    have hpathclean : ∀ c ∈ SHORTS_SEP ++ (id.data ++ rest.data),
        (¬c = '\t' ∧ ¬c = '\r' ∧ ¬c = '\n') ∧ ¬c = '#' ∧ ¬c = '?' ∧ ¬c = ';' := by
      intro c hc
      rcases List.mem_append.mp hc with hc' | hc'
      · fin_cases hc' <;> refine ⟨by decide, by decide, by decide, by decide⟩
      · rcases List.mem_append.mp hc' with hc'' | hc''
        · exact ⟨(hq c hc'').1, (hq c hc'').2.2.2.1, (hq c hc'').2.2.1,
            (hq c hc'').2.2.2.2⟩
        · exact ⟨(hrq c hc'').1, (hrq c hc'').2.2.1, (hrq c hc'').2.1,
            (hrq c hc'').2.2.2⟩
    have hp := pyUrlparse_hostpath host.data (SHORTS_SEP ++ (id.data ++ rest.data))
      hh hpathclean ⟨"shorts/".data ++ (id.data ++ rest.data), rfl⟩
    have hmain := normalize_eq_of ("https://" ++ host ++ "/shorts/" ++ id ++ rest)
      ⟨"https".data, host.data, SHORTS_SEP ++ (id.data ++ rest.data), []⟩ id.data
      (by rw [hdata]; exact hp)
      (normalizeVid_shorts _ _ _ _ _ hrec hne (fun c hc => (hq c hc).2.1) hnosep
        hshape)
      hne
    rw [hmain, mk_data_append]
  · intro hpi hpr
    obtain ⟨hne, hq⟩ := pathIdOk_spec hpi
    obtain ⟨hshape, hrq⟩ := pathRestOk_spec hpr
    have hdata : ("https://youtu.be/" ++ id ++ rest).data =
        "https://".data ++ ("youtu.be".data ++ ('/' :: (id.data ++ rest.data))) := by
      simp [String.data_append, List.append_assoc]
    have hpathclean : ∀ c ∈ '/' :: (id.data ++ rest.data),
        (¬c = '\t' ∧ ¬c = '\r' ∧ ¬c = '\n') ∧ ¬c = '#' ∧ ¬c = '?' ∧ ¬c = ';' := by
      intro c hc
      rcases List.mem_cons.mp hc with rfl | hc'
      · exact ⟨by decide, by decide, by decide, by decide⟩
      · rcases List.mem_append.mp hc' with hc'' | hc''
        · exact ⟨(hq c hc'').1, (hq c hc'').2.2.2.1, (hq c hc'').2.2.1,
            (hq c hc'').2.2.2.2⟩
        · exact ⟨(hrq c hc'').1, (hrq c hc'').2.2.1, (hrq c hc'').2.1,
            (hrq c hc'').2.2.2⟩
    have hp := pyUrlparse_hostpath "youtu.be".data ('/' :: (id.data ++ rest.data))
      (by decide) hpathclean ⟨id.data ++ rest.data, rfl⟩
    have hmain := normalize_eq_of ("https://youtu.be/" ++ id ++ rest)
      ⟨"https".data, "youtu.be".data, '/' :: (id.data ++ rest.data), []⟩ id.data
      (by rw [hdata]; exact hp)
      (normalizeVid_short_host _ _ _ _ hne (fun c hc => (hq c hc).2.1) hshape)
      hne
    rw [hmain, mk_data_append]

/-- Witness for C5: one concrete instance of each recognized form. -/
theorem C5_normalize_recognized_forms_witness :
    normalize_youtube_link ("https://" ++ "www.youtube.com" ++ "/watch?v=" ++ "dQw4w9WgXcQ") =
      some ("https://www.youtube.com/watch?v=" ++ "dQw4w9WgXcQ") ∧
    normalize_youtube_link ("https://" ++ "youtube.com" ++ "/shorts/" ++ "abc" ++ "/extra") =
      some ("https://www.youtube.com/watch?v=" ++ "abc") ∧
    normalize_youtube_link ("https://youtu.be/" ++ "xyz" ++ "") =
      some ("https://www.youtube.com/watch?v=" ++ "xyz") :=
  ⟨(C5_normalize_recognized_forms "www.youtube.com" "dQw4w9WgXcQ" "").1
      (by decide) (by decide),
   (C5_normalize_recognized_forms "youtube.com" "abc" "/extra").2.1
      (by decide) (by decide) (by decide) (by decide),
   (C5_normalize_recognized_forms "youtu.be" "xyz" "").2.2
      (by decide) (by decide)⟩

/-- C6: a parsed URL whose host neither contains `youtube.com`
(case-insensitively) nor equals `youtu.be` is rejected: no canonical URL
is produced. -/
theorem C6_unrecognized_host_rejected (s : String) (u : PyUrl)
    (hp : pyUrlparse s.data = some u)
    (h₁ : listContainsSub "youtube.com".data (u.netloc.map Char.toLower) = false)
    (h₂ : ¬u.netloc.map Char.toLower = "youtu.be".data) :
    normalize_youtube_link s = none := by
  apply normalize_none_of s u hp
  simp only [normalizeVid]
  rw [if_neg (by simp [h₁]), if_neg h₂]

/-- Witness for C6 on a non-YouTube host. -/
theorem C6_unrecognized_host_rejected_witness :
    normalize_youtube_link "https://example.com/watch?v=x" = none :=
  C6_unrecognized_host_rejected "https://example.com/watch?v=x"
    ⟨"https".data, "example.com".data, "/watch".data, "v=x".data⟩
    rfl rfl (by decide)

/-- C8: on every input the normalizer returns either the absent result or
a canonical watch URL with a nonempty identifier — the exception paths of
`urlparse` are caught and modeled as the absent result, and the function
is pure. -/
theorem C8_normalize_total_no_raise (s : String) :
    normalize_youtube_link s = none ∨
    ∃ id : List Char, id ≠ [] ∧
      normalize_youtube_link s =
        some (String.mk ("https://www.youtube.com/watch?v=".data ++ id)) :=
  normalize_output_shape s

/-- Witness for C8 at an unparseable input. -/
theorem C8_normalize_total_no_raise_witness :
    normalize_youtube_link "notaurl" = none ∨
    ∃ id : List Char, id ≠ [] ∧
      normalize_youtube_link "notaurl" =
        some (String.mk ("https://www.youtube.com/watch?v=".data ++ id)) :=
  C8_normalize_total_no_raise "notaurl"

/-- Counterexample to C7 as stated: the output for `https://youtu.be/a&b`
is `https://www.youtube.com/watch?v=a&b`, and re-normalizing that output
truncates the identifier at the `&`, which `parse_qs` treats as a pair
separator.  Idempotence fails on this successful output. -/
theorem C7_counterexample :
    normalize_youtube_link "https://youtu.be/a&b" =
      some "https://www.youtube.com/watch?v=a&b" ∧
    normalize_youtube_link "https://www.youtube.com/watch?v=a&b" =
      some "https://www.youtube.com/watch?v=a" ∧
    ("https://www.youtube.com/watch?v=a" : String) ≠
      "https://www.youtube.com/watch?v=a&b" := by
  refine ⟨by decide, by decide, by decide⟩

/-- C7, amended: the normalizer is idempotent on its successful outputs
whose identifier part contains none of `& # % +` and none of tab, CR, LF.
(As originally stated the claim fails: an identifier extracted from a path
can contain `&`, which the re-parse then truncates — see the
counterexample.) -/
theorem C7_normalize_idempotent_on_clean (s c : String)
    (h : normalize_youtube_link s = some c)
    (hclean : ∀ ch ∈ c.data.drop 32, ¬ch = '&' ∧ ¬ch = '#' ∧ ¬ch = '%' ∧ ¬ch = '+' ∧
      ¬ch = '\t' ∧ ¬ch = '\r' ∧ ¬ch = '\n') :
    normalize_youtube_link c = some c := by
  rcases normalize_output_shape s with hn | ⟨id, hne, heq⟩
  · rw [hn] at h
    exact absurd h (by simp)
  · rw [heq] at h
    have hc : c = String.mk ("https://www.youtube.com/watch?v=".data ++ id) := by
      injection h with h'
      exact h'.symm
    subst hc
    have hdrop : (String.mk ("https://www.youtube.com/watch?v=".data ++ id)).data.drop 32
        = id := by
      rw [show (String.mk ("https://www.youtube.com/watch?v=".data ++ id)).data =
        "https://www.youtube.com/watch?v=".data ++ id from rfl]
      rw [show (32 : ℕ) = "https://www.youtube.com/watch?v=".data.length from rfl,
        List.drop_left]
    rw [hdrop] at hclean
    have hdata : (String.mk ("https://www.youtube.com/watch?v=".data ++ id)).data =
        "https://".data ++ ("www.youtube.com".data ++ ("/watch?v=".data ++ id)) := by
      rw [show (String.mk ("https://www.youtube.com/watch?v=".data ++ id)).data =
        "https://www.youtube.com/watch?v=".data ++ id from rfl]
      rw [show "https://www.youtube.com/watch?v=".data =
        "https://".data ++ ("www.youtube.com".data ++ "/watch?v=".data) from rfl]
      simp [List.append_assoc]
    have hp := pyUrlparse_watch "www.youtube.com".data id (by decide)
      (fun ch hch => ⟨⟨(hclean ch hch).2.2.2.2.1, (hclean ch hch).2.2.2.2.2.1,
        (hclean ch hch).2.2.2.2.2.2⟩, (hclean ch hch).2.1⟩)
    exact normalize_eq_of _
      ⟨"https".data, "www.youtube.com".data, "/watch".data, 'v' :: '=' :: id⟩ id
      (by rw [hdata]; exact hp)
      (by rw [normalizeVid_watch _ _ _ (by decide)]
          exact qsFirstV_clean hne (fun ch hch =>
            ⟨(hclean ch hch).1, (hclean ch hch).2.2.1, (hclean ch hch).2.2.2.1⟩))
      hne

/-- Witness for C7's amended statement on a concrete clean output. -/
theorem C7_normalize_idempotent_on_clean_witness :
    normalize_youtube_link "https://www.youtube.com/watch?v=abc" =
      some "https://www.youtube.com/watch?v=abc" :=
  C7_normalize_idempotent_on_clean "https://youtu.be/abc"
    "https://www.youtube.com/watch?v=abc" (by decide) (by decide)

end YtDl
